import Mathlib

/-
  Shallow embedding of the gohttp request-building and execution pipeline
  (package gohttp: Client, its chained configuration methods, prepareFiles,
  prepareRequest, Do, and the retry loop), together with proofs of the
  specification claims about it.

  External collaborators (net/url parsing, the go-querystring encoder, the
  JSON encoder, the transport) are modelled by their outcomes, passed in as
  parameters or stored as encoder-outcome values, exactly at the narrow
  interfaces the code consumes them through.
-/

set_option autoImplicit false

namespace Gohttp

/- Constants from the source. -/
def contentType : String := "Content-Type"
def jsonContentType : String := "application/json"
def formContentType : String := "application/x-www-form-urlencoded"

/- DefaultTimeout = 3 * time.Second, in nanoseconds. -/
def DefaultTimeout : Int := 3 * 1000000000

/-- Go `map[string]string` update: last write wins per key.  The map is
modelled as an association list with at most one entry per key. -/
def mapSet : List (String × String) → String → String → List (String × String)
  | [], k, v => [(k, v)]
  | (k', v') :: rest, k, v =>
      if k' = k then (k, v) :: rest else (k', v') :: mapSet rest k v

/-- `basicAuth` struct: plain username and password. -/
structure basicAuth where
  username : String
  password : String
deriving DecidableEq

/-- `fileForm` wraps one file part of a multiple-files upload.  The `*os.File`
is modelled by the bytes still unread on its stream (`content`) plus the read
error the stream would produce, if any (`readErr`). -/
structure fileForm where
  fieldName : String
  filename : String
  content : String
  readErr : Option String
deriving DecidableEq

/-- An `*http.Cookie` (name and value; other attributes are not consumed by
the pipeline beyond being attached to the request). -/
structure Cookie where
  name : String
  value : String
deriving DecidableEq

/-- An opaque structured value handed to the external go-querystring encoder
(`query.Values`), modelled by the outcome that encoder produces for it. -/
inductive StructVal where
  | encodesTo (pairs : List (String × String))
  | failsWith (msg : String)
deriving DecidableEq

/-- `query.Values` of the go-querystring collaborator. -/
def queryValues : StructVal → Except String (List (String × String))
  | .encodesTo pairs => .ok pairs
  | .failsWith msg => .error msg

/-- An opaque value handed to the external JSON encoder
(`json.NewEncoder(buf).Encode`), modelled by the outcome it produces. -/
inductive EncPayload where
  | encodesTo (text : String)
  | failsWith (msg : String)
deriving DecidableEq

/-- The `Client` struct.  The `net/http` transport and client objects carry no
claim-relevant pure state (their configuration errors surface in
`setupClient`); `timeout`, `tlsHandshakeTimeout` are durations in
nanoseconds. -/
structure Client where
  query : List (String × String)
  queryStructs : List StructVal
  headers : List (String × String)
  url : String
  path : String
  body : Option String
  auth : basicAuth
  cookies : List Cookie
  files : List fileForm
  proxy : String
  timeout : Int
  tlsHandshakeTimeout : Int
  retries : Int
  debug : Bool
deriving DecidableEq

/- ------------------------------------------------------------------ -/
/- path/filepath.Clean and Join (unix separators), used by Path and by  -/
/- the path-concatenation step of prepareRequest.                       -/
/- ------------------------------------------------------------------ -/

/-- Is the scanner at a path-element boundary: end of input or a slash? -/
def atEnd : List Char → Bool
  | [] => true
  | c :: _ => c = '/'

/-- The backtracking of `Clean` on a `..` element: starting from write cursor
`w`, step left while the cursor is above `dotdot` and the character under it
is not a slash (the `for out.w > dotdot && out.index(out.w) != '/'` loop). -/
def backtrackW (out : List Char) (dotdot : Nat) : Nat → Nat
  | 0 => 0
  | w + 1 =>
      if dotdot < w + 1 ∧ out.getD (w + 1) ' ' ≠ '/' then backtrackW out dotdot w
      else w + 1

/-- The separator rule of `Clean`'s default case: append a `/` before a path
element unless the buffer is still at its initial content (just `/` when
rooted, empty otherwise). -/
def sepOut (rooted : Bool) (out : List Char) : List Char :=
  if (rooted = true ∧ out.length ≠ 1) ∨ (rooted = false ∧ out.length ≠ 0)
  then out ++ ['/'] else out

/-- One pass of `Clean`'s scanner.  `inWord = true` means the scanner is
inside the inner copy loop of the default case (copying a path element
character by character until a separator); this renders that inner loop as
part of the single character-consuming recursion. -/
def cleanLoop : List Char → Bool → Bool → Nat → List Char → List Char
  | [], _, _, _, out => out
  | c :: rest, true, rooted, dotdot, out =>
      if c = '/' then cleanLoop rest false rooted dotdot out
      else cleanLoop rest true rooted dotdot (out ++ [c])
  | c :: rest, false, rooted, dotdot, out =>
      if c = '/' then
        -- empty path element
        cleanLoop rest false rooted dotdot out
      else if c = '.' ∧ atEnd rest = true then
        -- `.` element
        cleanLoop rest false rooted dotdot out
      else if c = '.' ∧ rest.head? = some '.' ∧ atEnd rest.tail = true then
        -- `..` element: backtrack, or emit `..` when not rooted.  The second
        -- dot still on `rest` is consumed as a `.` element by the next step,
        -- which leaves the state untouched.
        if dotdot < out.length then
          cleanLoop rest false rooted dotdot
            (out.take (backtrackW out dotdot (out.length - 1)))
        else if rooted = false then
          let out' := (if out.length ≠ 0 then out ++ ['/'] else out) ++ ['.', '.']
          cleanLoop rest false rooted out'.length out'
        else
          cleanLoop rest false rooted dotdot out
      else
        -- real path element: add slash if needed, then copy the element
        cleanLoop rest true rooted dotdot (sepOut rooted out ++ [c])

/-- `path/filepath.Clean` (equivalently `path.Clean`) for slash-separated
paths. -/
def clean (path : String) : String :=
  if path = "" then "."
  else
    let cs := path.data
    let rooted : Bool := decide (cs.head? = some '/')
    let out :=
      cleanLoop cs false rooted (if rooted then 1 else 0)
        (if rooted then ['/'] else [])
    if out = [] then "." else ⟨out⟩

/-- `filepath.Join` at the arity the source uses: join two elements with a
separator, ignoring empty ones, and clean the result. -/
def filepathJoin (a b : String) : String :=
  if a ≠ "" then clean (a ++ "/" ++ b)
  else if b ≠ "" then clean b
  else ""

/-- `New()` returns a new client with default values; `debugOn` is the value
of the `GOHTTP_DEBUG == "1"` environment test. -/
def New (debugOn : Bool) : Client :=
  { query := []
    queryStructs := []
    headers := []
    url := ""
    path := ""
    body := none
    auth := { username := "", password := "" }
    cookies := []
    files := []
    proxy := ""
    timeout := DefaultTimeout
    tlsHandshakeTimeout := 0
    retries := 0
    debug := debugOn }

/- ------------------------------------------------------------------ -/
/- Chained configuration methods.                                       -/
/- ------------------------------------------------------------------ -/

/-- `strings.HasPrefix(s, "/")`: does the string start with a slash? -/
def leadingSlash (s : String) : Bool :=
  s.data.head? = some '/'

/-- `URL(url)` sets the base url; empty string leaves it unchanged. -/
def Client.URL (c : Client) (url : String) : Client :=
  if url ≠ "" then { c with url := url } else c

/-- `Path(paths...)` joins each non-empty segment onto the stored path with
`filepath.Join`. -/
def Client.Path (c : Client) (paths : List String) : Client :=
  paths.foldl
    (fun c path =>
      if path ≠ "" then { c with path := filepathJoin c.path path } else c)
    c

/-- `Proxy(proxy)`: empty string leaves the stored proxy unchanged. -/
def Client.Proxy (c : Client) (proxy : String) : Client :=
  if proxy ≠ "" then { c with proxy := proxy } else c

/-- `Timeout(timeout)`. -/
def Client.Timeout (c : Client) (timeout : Int) : Client :=
  { c with timeout := timeout }

/-- `TLSHandshakeTimeout(timeout)`. -/
def Client.TLSHandshakeTimeout (c : Client) (timeout : Int) : Client :=
  { c with tlsHandshakeTimeout := timeout }

/-- `Retries(n)`: how many attempts before giving up on error. -/
def Client.Retries (c : Client) (n : Int) : Client :=
  { c with retries := n }

/-- `Debug(debug)`. -/
def Client.Debug (c : Client) (debug : Bool) : Client :=
  { c with debug := debug }

/-- `Cookie(cookie)` appends one cookie; a nil argument is ignored. -/
def Client.Cookie (c : Client) (cookie : Option Cookie) : Client :=
  match cookie with
  | some ck => { c with cookies := c.cookies ++ [ck] }
  | none => c

/-- `Query(key, value)` sets one simple query parameter. -/
def Client.Query (c : Client) (key value : String) : Client :=
  { c with query := mapSet c.query key value }

/-- `QueryStruct(queryStruct)` registers one structured value for resolution-
time encoding. -/
def Client.QueryStruct (c : Client) (queryStruct : StructVal) : Client :=
  { c with queryStructs := c.queryStructs ++ [queryStruct] }

/-- `BasicAuth(username, password)` sets the credential pair
unconditionally. -/
def Client.BasicAuth (c : Client) (username password : String) : Client :=
  { c with auth := { username := username, password := password } }

/-- `Header(key, value)` sets one header. -/
def Client.Header (c : Client) (key value : String) : Client :=
  { c with headers := mapSet c.headers key value }

/-- `jsonBodyData` wraps a payload for the JSON encoder. -/
structure jsonBodyData where
  payload : EncPayload

/-- `jsonBodyData.Body()`: encode the payload, or fail. -/
def jsonBodyData.Body (jbd : jsonBodyData) : Except String String :=
  match jbd.payload with
  | .encodesTo text => .ok text
  | .failsWith msg => .error msg

/-- `JSON(bodyJSON)` sets the literal text as body and the content type to
JSON; an empty string leaves the client untouched. -/
def Client.JSON (c : Client) (bodyJSON : String) : Client :=
  if bodyJSON ≠ "" then
    let c := c.Header contentType jsonContentType
    { c with body := some bodyJSON }
  else c

/-- `JSONStruct(bodyJSON)`: encode a struct as the JSON body.  A nil value is
ignored.  NOTE (faithful to the source): the encoder error is discarded,
`body, _ := jsonBodyData{payload: bodyJSON}.Body()`, so on failure the body
becomes nil while the content-type header has already been set. -/
def Client.JSONStruct (c : Client) (bodyJSON : Option EncPayload) : Client :=
  match bodyJSON with
  | some payload =>
      let c := c.Header contentType jsonContentType
      let body : Option String :=
        match (jsonBodyData.mk payload).Body with
        | .ok r => some r
        | .error _ => none
      { c with body := body }
  | none => c

/-- Stable insertion of a pair into a by-key sorted list (later duplicates of
a key end up after earlier ones). -/
def insertByKey (p : String × String) :
    List (String × String) → List (String × String)
  | [] => [p]
  | q :: rest =>
      if q.1 ≤ p.1 then q :: insertByKey p rest else p :: q :: rest

/-- `url.Values.Encode()` orders the parameters by key; percent-escaping is
left to the (out of scope) codec, so the encoded query string is modelled as
the key-sorted list of pairs. -/
def encodeValues (q : List (String × String)) : List (String × String) :=
  q.foldl (fun acc p => insertByKey p acc) []

/-- Render `url.Values.Encode()` as the `k=v&k=v` text (escaping delegated). -/
def encodeValuesText (q : List (String × String)) : String :=
  String.intercalate "&" ((encodeValues q).map (fun p => p.1 ++ "=" ++ p.2))

/-- `formBodyData` wraps a payload for the form encoder. -/
structure formBodyData where
  payload : StructVal

/-- `formBodyData.Body()`: run the structured encoder, then `values.Encode()`
the result. -/
def formBodyData.Body (fbd : formBodyData) : Except String String :=
  match queryValues fbd.payload with
  | .error e => .error e
  | .ok values => .ok (encodeValuesText values)

/-- `Form(bodyForm)`: encode a struct as form body.  A nil value is ignored.
NOTE (faithful to the source): the encoder error is discarded,
`body, _ := formBodyData{payload: bodyForm}.Body()`. -/
def Client.Form (c : Client) (bodyForm : Option StructVal) : Client :=
  match bodyForm with
  | some payload =>
      let c := c.Header contentType formContentType
      let body : Option String :=
        match (formBodyData.mk payload).Body with
        | .ok r => some r
        | .error _ => none
      { c with body := body }
  | none => c

/-- `Body(body)` sets the raw request body; nil is ignored. -/
def Client.Body (c : Client) (body : Option String) : Client :=
  match body with
  | some b => { c with body := some b }
  | none => c

/-- `File(f, fileName, fieldName)` appends one file part; `f` is the
`*os.File`, modelled by its unread contents and pending read error. -/
def Client.File (c : Client) (f : String × Option String)
    (fileName fieldName : String) : Client :=
  let ff : fileForm :=
    { fieldName := fieldName, filename := fileName,
      content := f.1, readErr := f.2 }
  { c with files := c.files ++ [ff] }

/- ------------------------------------------------------------------ -/
/- Resolution: prepareFiles, setupClient, prepareRequest.               -/
/- ------------------------------------------------------------------ -/

/-- A parsed URL as far as the pipeline consumes it: the path component and
the query parameters carried by the raw query string. -/
structure URLData where
  path : String
  rawQuery : List (String × String)
deriving DecidableEq

/-- The concrete `*http.Request` as far as the pipeline fills it in.
`basicAuthHdr` stands for the Authorization header `SetBasicAuth` writes. -/
structure Request where
  method : String
  url : URLData
  headers : List (String × String)
  cookies : List Cookie
  basicAuthHdr : Option basicAuth
  body : Option String
deriving DecidableEq

/-- `writer.FormDataContentType()`. -/
def multipartContentType (boundary : String) : String :=
  "multipart/form-data; boundary=" ++ boundary

/-- One multipart part as the multipart writer frames it:
`CreateFormFile(fieldName, filename)` followed by the copied file content. -/
def formFilePart (boundary : String) (f : fileForm) : String :=
  "--" ++ boundary ++ "\r\n" ++
  "Content-Disposition: form-data; name=\"" ++ f.fieldName ++
  "\"; filename=\"" ++ f.filename ++ "\"\r\n" ++
  "Content-Type: application/octet-stream\r\n\r\n" ++
  f.content ++ "\r\n"

/-- The file parts written into the buffer, in insertion order. -/
def multipartParts (boundary : String) : List fileForm → String
  | [] => ""
  | f :: rest => formFilePart boundary f ++ multipartParts boundary rest

/-- The whole multipart body: every part in insertion order, then the closing
boundary written by `writer.Close()`. -/
def multipartBody (boundary : String) (files : List fileForm) : String :=
  multipartParts boundary files ++ "--" ++ boundary ++ "--\r\n"

/-- The first read error among the file sources, if any: `io.Copy` aborts
`prepareFiles` at the first file whose stream fails. -/
def filesReadError : List fileForm → Option String
  | [] => none
  | f :: rest =>
      match f.readErr with
      | some e => some e
      | none => filesReadError rest

/-- Reading a file stream to the end leaves nothing on it. -/
def consumeFile (f : fileForm) : fileForm :=
  { f with content := "" }

/-- `prepareFiles`: when files are registered, write them through the
multipart writer into a fresh buffer, set the multipart content type on the
client's headers, and replace the client's body with that buffer.  Copying a
file consumes its stream.  `boundary` is the randomly generated boundary of
the multipart writer. -/
def Client.prepareFiles (c : Client) (boundary : String) :
    Except String Client :=
  if c.files ≠ [] then
    match filesReadError c.files with
    | some e => .error e
    | none =>
        let body := multipartBody boundary c.files
        let c := c.Header contentType (multipartContentType boundary)
        .ok { c with body := some body, files := c.files.map consumeFile }
  else .ok c

/-- `setupClient`: the only failure is a malformed proxy URL; the remaining
work (installing proxy and TLS handshake timeout on the transport, building
the `http.Client` with the timeout) is connection plumbing outside this
model.  `parse` is `url.Parse`, modelled by its outcome. -/
def Client.setupClient (c : Client)
    (parse : String → Except String URLData) : Except String Client :=
  if c.proxy ≠ "" then
    match parse c.proxy with
    | .error e => .error e
    | .ok _ => .ok c
  else .ok c

/-- `query.Values` over each registered structured value in order, adding the
produced pairs onto the query parameter list; the first encoder failure
aborts (`return req, err`). -/
def addStructs : List StructVal → List (String × String) →
    Except String (List (String × String))
  | [], q => .ok q
  | sv :: rest, q =>
      match queryValues sv with
      | .error e => .error e
      | .ok pairs => addStructs rest (q ++ pairs)

/-- Outcome of `prepareRequest`.  `nilDeref` renders the nil-pointer
dereference (a runtime panic) that happens when `http.NewRequest` has failed
and a later block dereferences the nil `req`; the carried client is the
builder's state at that point. -/
inductive PrepResult where
  | success (c : Client) (req : Request)
  | failure (c : Client) (msg : String)
  | nilDeref (c : Client)
deriving DecidableEq

/-- The builder's state carried by a `PrepResult` (the method receiver is the
same object in all outcomes). -/
def PrepResult.client : PrepResult → Client
  | .success c _ => c
  | .failure c _ => c
  | .nilDeref c => c

/-- `prepareRequest(method)`.  Order of the blocks is exactly the source's:
setupClient; prepareFiles; `req, err := http.NewRequest(method, c.url,
c.body)`; path join; simple query merge; structured query merge; headers;
cookies; basic auth; and only then `if err != nil`.  When `http.NewRequest`
fails it returns a nil `req`, so each of the intermediate blocks, if it runs,
dereferences a nil pointer. -/
def Client.prepareRequest (c : Client)
    (parse : String → Except String URLData) (boundary : String)
    (method : String) : PrepResult :=
  match c.setupClient parse with
  | .error e => .failure c e
  | .ok c =>
  match c.prepareFiles boundary with
  | .error e => .failure c e
  | .ok c =>
  match parse c.url with
  | .error e =>
      -- req is nil and err is non-nil, but err is only tested after the
      -- blocks below have dereferenced req.
      if c.path ≠ "" then
        .nilDeref (if ¬ leadingSlash c.path
                   then { c with path := "/" ++ c.path } else c)
      else if c.query ≠ [] then .nilDeref c
      else if c.queryStructs ≠ [] then .nilDeref c
      else if c.headers ≠ [] then .nilDeref c
      else if c.cookies ≠ [] then .nilDeref c
      else if c.auth.username ≠ "" ∧ c.auth.password ≠ "" then .nilDeref c
      else .failure c e
  | .ok u =>
      -- concatenate path to url if it exists, fixing a missing leading slash
      -- on the stored path first
      let c := if c.path ≠ "" ∧ ¬ leadingSlash c.path
               then { c with path := "/" ++ c.path } else c
      let urlPath := if c.path ≠ "" then filepathJoin u.path c.path else u.path
      -- simple query merge: Add each pair, then Encode
      let rq1 := if c.query ≠ []
                 then encodeValues (u.rawQuery ++ c.query) else u.rawQuery
      -- structured query merge
      match (if c.queryStructs ≠ []
             then (addStructs c.queryStructs rq1).map encodeValues
             else .ok rq1) with
      | .error e => .failure c e
      | .ok rq2 =>
          .success c
            { method := method
              url := { path := urlPath, rawQuery := rq2 }
              headers := c.headers
              cookies := c.cookies
              basicAuthHdr :=
                if c.auth.username ≠ "" ∧ c.auth.password ≠ ""
                then some c.auth else none
              body := c.body }

/- ------------------------------------------------------------------ -/
/- Execution: the retry loop and Do.                                    -/
/- ------------------------------------------------------------------ -/

/-- A transport-level response (`*http.Response`); non-2xx statuses are plain
responses, not errors. -/
structure HTTPResponse where
  status : Nat
  respBody : String
deriving DecidableEq

/-- Did `c.c.Do(req)` return without a transport error? -/
def exceptOk {ε α : Type} : Except ε α → Bool
  | .ok _ => true
  | .error _ => false

/-- The retry loop of `Do`:

    tried := 0
    for { resp, err = c.c.Do(req); tried++
          if c.retries <= 1 || tried >= c.retries || err == nil { break } }

`transport i` is the outcome of the i-th transmission attempt.  `fuel` is the
number of further attempts the count bound still allows: the loop breaks when
`retries <= 1` or `tried >= retries`, i.e. exactly when
`(retries - 1).toNat - tried = 0`, so running with initial fuel
`(retries - 1).toNat` reproduces the break condition.  Returns the final
value of `tried` and the last attempt's outcome. -/
def retryGo (transport : Nat → Except String HTTPResponse) (tried : Nat) :
    Nat → Nat × Except String HTTPResponse
  | 0 => (tried + 1, transport tried)
  | fuel + 1 =>
      let r := transport tried
      if exceptOk r then (tried + 1, r)
      else retryGo transport (tried + 1) fuel

/-- The retry loop, entered with `tried = 0`. -/
def retryLoop (retries : Int)
    (transport : Nat → Except String HTTPResponse) :
    Nat × Except String HTTPResponse :=
  retryGo transport 0 (retries - 1).toNat

/-- The outcome of a terminal verb call. -/
inductive DoResult where
  | success (resp : HTTPResponse)
  | failure (msg : String)
  | nilDeref
deriving DecidableEq

/-- What a terminal verb call did: the builder afterwards (the receiver is
mutated in place), the request handed to the transport if transmission was
reached, the number of transmission attempts, and the result. -/
structure DoOutcome where
  client : Client
  sent : Option Request
  attempts : Nat
  result : DoResult
deriving DecidableEq

/-- The url chosen from the optional variadic argument of a verb:
`if len(urls) >= 1 && urls[0] != "" { url = urls[0] }`. -/
def urlArg : List String → String
  | [] => ""
  | u :: _ => if u ≠ "" then u else ""

/-- `Do(method, urls...)`: set the url override, resolve, then transmit with
the retry loop.  The debug dumps only write to the log sink and are not
modelled. -/
def Client.Do (c : Client) (parse : String → Except String URLData)
    (transport : Nat → Except String HTTPResponse) (boundary : String)
    (method : String) (urls : List String) : DoOutcome :=
  let c := c.URL (urlArg urls)
  match c.prepareRequest parse boundary method with
  | .nilDeref c' => { client := c', sent := none, attempts := 0, result := .nilDeref }
  | .failure c' e => { client := c', sent := none, attempts := 0, result := .failure e }
  | .success c' req =>
      let out := retryLoop c'.retries transport
      match out.2 with
      | .error e =>
          { client := c', sent := some req, attempts := out.1,
            result := .failure e }
      | .ok resp =>
          { client := c', sent := some req, attempts := out.1,
            result := .success resp }

/-- `Get` delegates to `Do`. -/
def Client.Get (c : Client) (parse : String → Except String URLData)
    (transport : Nat → Except String HTTPResponse) (boundary : String)
    (urls : List String) : DoOutcome :=
  c.Do parse transport boundary "GET" urls

/-- `Post` delegates to `Do`. -/
def Client.Post (c : Client) (parse : String → Except String URLData)
    (transport : Nat → Except String HTTPResponse) (boundary : String)
    (urls : List String) : DoOutcome :=
  c.Do parse transport boundary "POST" urls

/- ------------------------------------------------------------------ -/
/- Reference-level model of the builder, for the cloning semantics of   -/
/- Client.New.  Go maps and slices are reference values: a map variable -/
/- is a pointer to a shared table, a slice variable is a header (backing -/
/- array pointer, length) whose append may write past the shared length  -/
/- or reallocate.  This model makes those references explicit so that    -/
/- sharing between a builder and its clone is observable.                -/
/- ------------------------------------------------------------------ -/

/-- A Go slice header: backing-array reference and length.  (Capacity lives
with the backing array.) -/
structure GoSlice where
  arr : Nat
  len : Nat
deriving DecidableEq

/-- A Go backing array: the written cells and the capacity. -/
structure GoArr (α : Type) where
  data : List α
  cap : Nat
deriving DecidableEq

/-- Write cell `i` of a backing array (in-range `append` writes at
`i = data.length`, extending the written cells within capacity). -/
def writeAt {α : Type} (data : List α) (i : Nat) (x : α) : List α :=
  if i < data.length then data.set i x else data ++ [x]

/-- Go `append(s, x)` on a slice of the pool `arrs`: write in place when the
backing array still has room, otherwise reallocate a fresh, larger array with
the slice's visible cells plus the new element.  Returns the updated pool and
the new slice header; the input header is unchanged, which is what every
other variable holding it keeps seeing. -/
def goAppend {α : Type} (arrs : List (GoArr α)) (s : GoSlice) (x : α) :
    List (GoArr α) × GoSlice :=
  let a := arrs.getD s.arr ⟨[], 0⟩
  if s.len < a.cap then
    (arrs.set s.arr ⟨writeAt a.data s.len x, a.cap⟩, ⟨s.arr, s.len + 1⟩)
  else
    (arrs ++ [⟨a.data.take s.len ++ [x], max 1 (2 * a.cap)⟩],
     ⟨arrs.length, s.len + 1⟩)

/-- The heap behind the reference-level builder: `map[string]string` objects,
and the backing arrays of the `[]*fileForm`, `[]*http.Cookie` and
`[]interface{}` slices.  `transports` counts allocated `http.Transport`
objects so that fresh transports get fresh references. -/
structure Mem where
  maps : List (List (String × String))
  fileArrs : List (GoArr fileForm)
  cookieArrs : List (GoArr Cookie)
  structArrs : List (GoArr StructVal)
  transports : Nat
deriving DecidableEq

/-- Allocate a map object holding `content`. -/
def Mem.allocMap (m : Mem) (content : List (String × String)) : Mem × Nat :=
  ({ m with maps := m.maps ++ [content] }, m.maps.length)

/-- The `Client` struct with its reference-typed fields kept as references:
`query`, `headers` point at map objects; `queryStructs`, `cookies`, `files`
are slice headers; `body` is a reader reference (or nil); `transport` is a
transport reference. -/
structure ClientH where
  query : Nat
  queryStructs : GoSlice
  headers : Nat
  url : String
  path : String
  body : Option Nat
  auth : basicAuth
  cookies : GoSlice
  files : GoSlice
  proxy : String
  timeout : Int
  tlsHandshakeTimeout : Int
  retries : Int
  debug : Bool
  transport : Nat
deriving DecidableEq

/-- `New()` at the reference level: fresh empty maps, fresh zero-length
zero-capacity slices, a fresh transport. -/
def NewH (m : Mem) (debugOn : Bool) : Mem × ClientH :=
  let (m, q) := m.allocMap []
  let (m, h) := m.allocMap []
  let mqs := { m with structArrs := m.structArrs ++ [(⟨[], 0⟩ : GoArr StructVal)] }
  let sQS : GoSlice := ⟨m.structArrs.length, 0⟩
  let mck := { mqs with cookieArrs := mqs.cookieArrs ++ [(⟨[], 0⟩ : GoArr Cookie)] }
  let sCK : GoSlice := ⟨mqs.cookieArrs.length, 0⟩
  let mfl := { mck with fileArrs := mck.fileArrs ++ [(⟨[], 0⟩ : GoArr fileForm)] }
  let sFL : GoSlice := ⟨mck.fileArrs.length, 0⟩
  let mtr := { mfl with transports := mfl.transports + 1 }
  (mtr,
   { query := q, queryStructs := sQS, headers := h, url := "", path := "",
     body := none, auth := { username := "", password := "" },
     cookies := sCK, files := sFL, proxy := "",
     timeout := DefaultTimeout, tlsHandshakeTimeout := 0, retries := 0,
     debug := debugOn, transport := mfl.transports })

/-- `copyMap(src)`: allocate a fresh map object with the same contents. -/
def Mem.copyMap (m : Mem) (src : Nat) : Mem × Nat :=
  m.allocMap (m.maps.getD src [])

/-- `(c *Client) New()`: clone the builder.  Scalars and the path/url strings
are value-copied; `query` and `headers` go through `copyMap`; the
pointer-bearing fields — `queryStructs`, `body`, `cookies`, `files`, and the
`transport` — are copied as references, so clone and original keep pointing
at the same objects. -/
def ClientH.New (c : ClientH) (m : Mem) : Mem × ClientH :=
  let r1 := m.copyMap c.query
  let r2 := r1.1.copyMap c.headers
  (r2.1, { c with query := r1.2, headers := r2.2 })

/-- `Header(key, value)` at the reference level: update the shared map
object in place. -/
def ClientH.Header (c : ClientH) (m : Mem) (key value : String) :
    Mem × ClientH :=
  ({ m with maps :=
      m.maps.set c.headers (mapSet (m.maps.getD c.headers []) key value) },
   c)

/-- `Query(key, value)` at the reference level. -/
def ClientH.Query (c : ClientH) (m : Mem) (key value : String) :
    Mem × ClientH :=
  ({ m with maps :=
      m.maps.set c.query (mapSet (m.maps.getD c.query []) key value) },
   c)

/-- `Path(paths...)` at the reference level: the path is a plain string
field, so this only rewrites the clone's own copy. -/
def ClientH.Path (c : ClientH) (m : Mem) (paths : List String) :
    Mem × ClientH :=
  (m,
   paths.foldl
     (fun c path =>
       if path ≠ "" then { c with path := filepathJoin c.path path } else c)
     c)

/-- `File(f, fileName, fieldName)` at the reference level:
`c.files = append(c.files, ff)`. -/
def ClientH.File (c : ClientH) (m : Mem) (f : String × Option String)
    (fileName fieldName : String) : Mem × ClientH :=
  let ff : fileForm :=
    { fieldName := fieldName, filename := fileName,
      content := f.1, readErr := f.2 }
  let r := goAppend m.fileArrs c.files ff
  ({ m with fileArrs := r.1 }, { c with files := r.2 })

/-- `Cookie(cookie)` at the reference level. -/
def ClientH.Cookie (c : ClientH) (m : Mem) (cookie : Option Cookie) :
    Mem × ClientH :=
  match cookie with
  | some ck =>
      let r := goAppend m.cookieArrs c.cookies ck
      ({ m with cookieArrs := r.1 }, { c with cookies := r.2 })
  | none => (m, c)

/-- The file list a builder sees: the visible cells of its slice. -/
def Mem.filesView (m : Mem) (s : GoSlice) : List fileForm :=
  (m.fileArrs.getD s.arr ⟨[], 0⟩).data.take s.len

/-- The headers map a builder sees. -/
def Mem.mapView (m : Mem) (r : Nat) : List (String × String) :=
  m.maps.getD r []

/- ------------------------------------------------------------------ -/
/- Helper lemmas.                                                       -/
/- ------------------------------------------------------------------ -/

theorem lookup_mapSet (m : List (String × String)) (k v : String) :
    (mapSet m k v).lookup k = some v := by
  induction m with
  | nil => simp [mapSet, List.lookup]
  | cons p rest ih =>
      obtain ⟨k', v'⟩ := p
      by_cases h : k' = k
      · simp [mapSet, h, List.lookup]
      · simp only [mapSet, if_neg h, List.lookup]
        have hkk : (k == k') = false := by
          simp only [beq_eq_false_iff_ne, ne_eq]
          exact fun hh => h hh.symm
        simp [hkk, ih]

theorem mapSet_mapSet (m : List (String × String)) (k v₁ v₂ : String) :
    mapSet (mapSet m k v₁) k v₂ = mapSet m k v₂ := by
  induction m with
  | nil => simp [mapSet]
  | cons p rest ih =>
      obtain ⟨k', v'⟩ := p
      by_cases h : k' = k
      · simp [mapSet, h]
      · simp [mapSet, if_neg h, ih]

theorem setupClient_ok {c c' : Client} {parse : String → Except String URLData}
    (h : c.setupClient parse = .ok c') : c' = c := by
  unfold Client.setupClient at h
  split at h
  · split at h <;> simp_all
  · simp_all

/-- `prepareFiles` only touches `headers`, `body` and `files`. -/
theorem prepareFiles_ok {c c' : Client} {bnd : String}
    (h : c.prepareFiles bnd = .ok c') :
    c'.url = c.url ∧ c'.retries = c.retries ∧ c'.path = c.path ∧
    c'.query = c.query ∧ c'.queryStructs = c.queryStructs ∧
    c'.cookies = c.cookies ∧ c'.auth = c.auth ∧ c'.proxy = c.proxy := by
  unfold Client.prepareFiles at h
  split at h
  · split at h
    · simp_all
    · simp only [Except.ok.injEq] at h
      subst h
      simp [Client.Header]
  · simp_all

/-- Resolution never rewrites the stored base url or the retry count: the
builder carried by any `prepareRequest` outcome keeps them. -/
theorem prepareRequest_preserves (c : Client)
    (parse : String → Except String URLData) (bnd method : String) :
    (c.prepareRequest parse bnd method).client.url = c.url ∧
    (c.prepareRequest parse bnd method).client.retries = c.retries := by
  unfold Client.prepareRequest
  split
  · simp [PrepResult.client]
  · rename_i c₀ hsetup
    have hc₀ : c₀ = c := setupClient_ok hsetup
    subst hc₀
    split
    · simp [PrepResult.client]
    · rename_i c₁ hfiles
      obtain ⟨hurl, hret, hpath, hq, hqs, hck, hauth, hproxy⟩ :=
        prepareFiles_ok hfiles
      split
      · -- http.NewRequest failed
        split
        · split <;> simp_all [PrepResult.client]
        · split
          · simp_all [PrepResult.client]
          · split
            · simp_all [PrepResult.client]
            · split
              · simp_all [PrepResult.client]
              · split
                · simp_all [PrepResult.client]
                · split <;> simp_all [PrepResult.client]
      · -- http.NewRequest succeeded
        split <;> (dsimp only; split <;> simp_all [PrepResult.client])

/-- The builder a `Do` call leaves behind always carries the url chosen from
the variadic argument (or the stored one), whatever the outcome. -/
theorem do_client_url (c : Client) (parse : String → Except String URLData)
    (transport : Nat → Except String HTTPResponse) (bnd method : String)
    (urls : List String) :
    (c.Do parse transport bnd method urls).client.url =
      (c.URL (urlArg urls)).url := by
  have h := (prepareRequest_preserves (c.URL (urlArg urls)) parse bnd method).1
  unfold Client.Do
  dsimp only
  split
  · rename_i c' heq
    rw [heq] at h
    simpa [PrepResult.client] using h
  · rename_i c' e heq
    rw [heq] at h
    simpa [PrepResult.client] using h
  · rename_i c' req heq
    rw [heq] at h
    simp only [PrepResult.client] at h
    split <;> simpa using h

/- ------------------------------------------------------------------ -/
/- Claims.                                                              -/
/- ------------------------------------------------------------------ -/

/-- C7: `JSON("")` is a complete no-op — it changes neither the body nor any
header, so a Content-Type header set beforehand is preserved — while for any
non-empty string `s`, `JSON(s)` sets the body to exactly `s` and the
Content-Type header to application/json. -/
theorem claim_C7_json_empty_noop (c : Client) :
    c.JSON "" = c ∧
    ∀ s : String, s ≠ "" →
      (c.JSON s).body = some s ∧
      ((c.JSON s).headers).lookup contentType = some jsonContentType := by
  refine ⟨by simp [Client.JSON], fun s hs => ⟨?_, ?_⟩⟩
  · simp [Client.JSON, hs, Client.Header]
  · simp [Client.JSON, hs, Client.Header, lookup_mapSet]

theorem claim_C7_witness :
    ((New false).Header "Content-Type" "text/plain").JSON "" =
      (New false).Header "Content-Type" "text/plain" ∧
    (((New false).Header "Content-Type" "text/plain").JSON "[1]").body =
      some "[1]" ∧
    ((((New false).Header "Content-Type" "text/plain").JSON
        "[1]").headers).lookup contentType = some jsonContentType := by
  have h := claim_C7_json_empty_noop ((New false).Header "Content-Type" "text/plain")
  exact ⟨h.1, (h.2 "[1]" (by decide)).1, (h.2 "[1]" (by decide)).2⟩

/-- C9: `BasicAuth(username, password)` unconditionally overwrites the stored
credential pair (including with empty strings), and the resolved request
carries a basic-auth authorization iff both stored credentials are non-empty
at resolution time (shown on a fresh builder with arbitrary credentials). -/
theorem claim_C9_basic_auth_iff (c : Client) (u p : String)
    (parse : String → Except String URLData) (u₀ : URLData)
    (bnd method : String) (hparse : parse "" = .ok u₀) :
    (c.BasicAuth u p).auth = ⟨u, p⟩ ∧
    ∃ req : Request,
      ((New false).BasicAuth u p).prepareRequest parse bnd method =
        .success ((New false).BasicAuth u p) req ∧
      (req.basicAuthHdr = some ⟨u, p⟩ ↔ u ≠ "" ∧ p ≠ "") := by
  refine ⟨rfl,
    ⟨{ method := method, url := u₀, headers := [], cookies := [],
       basicAuthHdr := if u ≠ "" ∧ p ≠ "" then some ⟨u, p⟩ else none,
       body := none }, ?_, ?_⟩⟩
  · simp [Client.prepareRequest, Client.setupClient, Client.prepareFiles,
      Client.BasicAuth, New, hparse]
  · by_cases hup : u ≠ "" ∧ p ≠ ""
    · simp [hup]
    · simp [if_neg hup, hup]

theorem claim_C9_witness :
    ((New false).BasicAuth "cizixs" "secret").auth = ⟨"cizixs", "secret"⟩ ∧
    ∃ req : Request,
      ((New false).BasicAuth "cizixs" "secret").prepareRequest
          (fun _ => .ok ⟨"", []⟩) "b" "GET" =
        .success ((New false).BasicAuth "cizixs" "secret") req ∧
      (req.basicAuthHdr = some ⟨"cizixs", "secret"⟩ ↔
        "cizixs" ≠ "" ∧ "secret" ≠ "") :=
  claim_C9_basic_auth_iff (New false) "cizixs" "secret"
    (fun _ => .ok ⟨"", []⟩) ⟨"", []⟩ "b" "GET" rfl

/-- C8: a terminal verb call with a non-empty URL argument permanently sets
the builder's stored base url (the mutation persists after the call); with an
absent or empty argument the stored base url is left unchanged and is the one
resolution uses. -/
theorem claim_C8_url_mutation (c : Client)
    (parse : String → Except String URLData)
    (transport : Nat → Except String HTTPResponse) (bnd method : String) :
    (∀ u us, u ≠ "" →
      (c.Do parse transport bnd method (u :: us)).client.url = u) ∧
    (c.Do parse transport bnd method []).client.url = c.url ∧
    (∀ us, (c.Do parse transport bnd method ("" :: us)).client.url = c.url) := by
  refine ⟨fun u us hu => ?_, ?_, fun us => ?_⟩
  · rw [do_client_url]
    simp [urlArg, Client.URL, hu]
  · rw [do_client_url]
    simp [urlArg, Client.URL]
  · rw [do_client_url]
    simp [urlArg, Client.URL]

theorem claim_C8_witness :
    (((New false).URL "http://old").Do (fun _ => .error "nohost")
        (fun _ => .error "conn") "b" "GET" ["http://new"]).client.url =
      "http://new" ∧
    (((New false).URL "http://old").Do (fun _ => .error "nohost")
        (fun _ => .error "conn") "b" "GET" [""]).client.url = "http://old" := by
  have h := claim_C8_url_mutation ((New false).URL "http://old")
    (fun _ => .error "nohost") (fun _ => .error "conn") "b" "GET"
  exact ⟨h.1 "http://new" [] (by decide), by
    have := h.2.2 []
    simpa [New, Client.URL] using this⟩

/-- C6: simple query parameters are last-write-wins per key: `Query(k, v₁)`
then `Query(k, v₂)` leaves the builder in exactly the state of `Query(k, v₂)`
alone, and on a fresh builder the resolved query parameter list is `[(k, v₂)]`
— it contains `k = v₂` and no entry `k = v₁`. -/
theorem claim_C6_query_last_write_wins (c : Client) (k v₁ v₂ : String)
    (parse : String → Except String URLData) (basePath : String)
    (bnd method : String) (hparse : parse "" = .ok ⟨basePath, []⟩) :
    (c.Query k v₁).Query k v₂ = c.Query k v₂ ∧
    ∃ req : Request,
      ((New false).Query k v₁ |>.Query k v₂).prepareRequest parse bnd method =
        .success ((New false).Query k v₁ |>.Query k v₂) req ∧
      req.url.rawQuery = [(k, v₂)] := by
  constructor
  · simp [Client.Query, mapSet_mapSet]
  · refine ⟨{ method := method,
               url := { path := basePath, rawQuery := [(k, v₂)] },
               headers := [], cookies := [], basicAuthHdr := none,
               body := none },
      ?_, rfl⟩
    simp [Client.prepareRequest, Client.setupClient, Client.prepareFiles,
      Client.Query, New, hparse, mapSet, encodeValues, insertByKey]

theorem claim_C6_witness :
    ((New false).Query "foo" "bar").Query "foo" "baz" =
      (New false).Query "foo" "baz" ∧
    ∃ req : Request,
      ((New false).Query "foo" "bar" |>.Query "foo" "baz").prepareRequest
          (fun _ => .ok ⟨"", []⟩) "b" "GET" =
        .success ((New false).Query "foo" "bar" |>.Query "foo" "baz") req ∧
      req.url.rawQuery = [("foo", "baz")] :=
  claim_C6_query_last_write_wins (New false) "foo" "bar" "baz"
    (fun _ => .ok ⟨"", []⟩) "" "b" "GET" rfl

/- ------------------------------------------------------------------ -/
/- The retry loop characterization (claim C1).                          -/
/- ------------------------------------------------------------------ -/

/-- The first index in `[tried, tried + n)` whose attempt outcome is not a
transport error. -/
def firstOkIn (transport : Nat → Except String HTTPResponse) (tried : Nat) :
    Nat → Option Nat
  | 0 => none
  | n + 1 =>
      if exceptOk (transport tried) then some tried
      else firstOkIn transport (tried + 1) n

/-- The verb-call result an attempt outcome turns into. -/
def resultOf : Except String HTTPResponse → DoResult
  | .ok resp => .success resp
  | .error e => .failure e

theorem firstOkIn_some (t : Nat → Except String HTTPResponse) :
    ∀ (n tried i : Nat), firstOkIn t tried n = some i →
      tried ≤ i ∧ i < tried + n ∧ exceptOk (t i) = true ∧
      ∀ j, tried ≤ j → j < i → exceptOk (t j) = false := by
  intro n
  induction n with
  | zero => intro tried i h; simp [firstOkIn] at h
  | succ n ih =>
      intro tried i h
      by_cases hok : exceptOk (t tried) = true
      · simp [firstOkIn, hok] at h
        subst h
        exact ⟨le_refl _, by omega, hok, fun j hj1 hj2 => by omega⟩
      · simp [firstOkIn, hok] at h
        obtain ⟨h1, h2, h3, h4⟩ := ih (tried + 1) i h
        refine ⟨by omega, by omega, h3, fun j hj1 hj2 => ?_⟩
        rcases Nat.eq_or_lt_of_le hj1 with hj | hj
        · subst hj; simpa using hok
        · exact h4 j hj hj2

theorem firstOkIn_none (t : Nat → Except String HTTPResponse) :
    ∀ (n tried : Nat), firstOkIn t tried n = none →
      ∀ j, tried ≤ j → j < tried + n → exceptOk (t j) = false := by
  intro n
  induction n with
  | zero => intro tried _ j hj1 hj2; omega
  | succ n ih =>
      intro tried h j hj1 hj2
      by_cases hok : exceptOk (t tried) = true
      · simp [firstOkIn, hok] at h
      · simp [firstOkIn, hok] at h
        rcases Nat.eq_or_lt_of_le hj1 with hj | hj
        · subst hj; simpa using hok
        · exact ih (tried + 1) h j hj (by omega)

/-- What the retry loop computes: the first non-error attempt in range stops
the loop and is returned with its index; otherwise the loop runs out of
budget and returns the last attempt's outcome. -/
theorem retryGo_spec (t : Nat → Except String HTTPResponse) :
    ∀ (fuel tried : Nat),
      retryGo t tried fuel =
        match firstOkIn t tried (fuel + 1) with
        | some i => (i + 1, t i)
        | none => (tried + fuel + 1, t (tried + fuel)) := by
  intro fuel
  induction fuel with
  | zero =>
      intro tried
      by_cases h : exceptOk (t tried) = true
      · simp [retryGo, firstOkIn, h]
      · simp [retryGo, firstOkIn, h]
  | succ fuel ih =>
      intro tried
      rw [show firstOkIn t tried (fuel + 1 + 1) =
          (if exceptOk (t tried) then some tried
           else firstOkIn t (tried + 1) (fuel + 1)) from rfl]
      by_cases h : exceptOk (t tried) = true
      · simp [retryGo, h]
      · simp only [retryGo, h, if_false, Bool.false_eq_true]
        rw [ih (tried + 1)]
        cases hfo : firstOkIn t (tried + 1) (fuel + 1) with
        | some i => simp [hfo]
        | none =>
            simp only [hfo]
            rw [show tried + 1 + fuel = tried + (fuel + 1) from by omega]

/-- The shape of a `Do` outcome once resolution has succeeded. -/
theorem do_success_shape (c : Client) (parse : String → Except String URLData)
    (transport : Nat → Except String HTTPResponse) (bnd method : String)
    (urls : List String) (c' : Client) (req : Request)
    (hprep : (c.URL (urlArg urls)).prepareRequest parse bnd method =
      .success c' req) :
    c.Do parse transport bnd method urls =
      { client := c', sent := some req,
        attempts := (retryLoop c'.retries transport).1,
        result := resultOf (retryLoop c'.retries transport).2 } := by
  unfold Client.Do
  dsimp only
  rw [hprep]
  cases h2 : (retryLoop c'.retries transport).2 <;> simp [h2, resultOf]

theorem url_keeps_retries (c : Client) (u : String) :
    (c.URL u).retries = c.retries := by
  unfold Client.URL
  split <;> rfl

/-- C1: with `Retries(n)` configured, `Do` makes exactly one transmission
attempt when `n ≤ 1` — even if it fails — and for `n > 1` it stops at the
first attempt that yields no error, otherwise makes exactly `n` attempts and
surfaces the final error (so `Retries(3)` with every attempt failing makes
exactly 3 attempts and then fails). -/
theorem claim_C1_retry_counts (c₀ : Client) (n : Int)
    (parse : String → Except String URLData)
    (transport : Nat → Except String HTTPResponse) (bnd method : String)
    (urls : List String) (c' : Client) (req : Request)
    (hprep : ((c₀.Retries n).URL (urlArg urls)).prepareRequest parse bnd method
      = .success c' req) :
    (n ≤ 1 →
      ((c₀.Retries n).Do parse transport bnd method urls).attempts = 1 ∧
      ((c₀.Retries n).Do parse transport bnd method urls).result =
        resultOf (transport 0)) ∧
    (1 < n →
      match firstOkIn transport 0 n.toNat with
      | some i =>
          ((c₀.Retries n).Do parse transport bnd method urls).attempts = i + 1 ∧
          ((c₀.Retries n).Do parse transport bnd method urls).result =
            resultOf (transport i) ∧
          exceptOk (transport i) = true ∧
          ∀ j, j < i → exceptOk (transport j) = false
      | none =>
          ((c₀.Retries n).Do parse transport bnd method urls).attempts =
            n.toNat ∧
          (∀ j, j < n.toNat → exceptOk (transport j) = false) ∧
          ∃ e, transport (n.toNat - 1) = .error e ∧
            ((c₀.Retries n).Do parse transport bnd method urls).result =
              .failure e) := by
  have hret : c'.retries = n := by
    have h :=
      (prepareRequest_preserves ((c₀.Retries n).URL (urlArg urls))
        parse bnd method).2
    rw [hprep] at h
    simpa [PrepResult.client, url_keeps_retries, Client.Retries] using h
  have hdo := do_success_shape (c₀.Retries n) parse transport bnd method urls
    c' req hprep
  rw [hdo, hret]
  constructor
  · intro hn
    have hf : (n - 1).toNat = 0 := by omega
    simp [retryLoop, hf, retryGo]
  · intro hn
    have hf : (n - 1).toNat + 1 = n.toNat := by omega
    have hloop := retryGo_spec transport (n - 1).toNat 0
    rw [hf] at hloop
    cases hfo : firstOkIn transport 0 n.toNat with
    | some i =>
        rw [hfo] at hloop
        dsimp only at hloop
        have hfin : retryLoop n transport = (i + 1, transport i) := by
          unfold retryLoop
          exact hloop
        obtain ⟨_, _, hok, hfail⟩ := firstOkIn_some transport n.toNat 0 i hfo
        exact ⟨by simp [hfin], by simp [hfin], hok,
          fun j hj => hfail j (Nat.zero_le j) hj⟩
    | none =>
        rw [hfo] at hloop
        dsimp only at hloop
        have h01 : 0 + (n - 1).toNat + 1 = n.toNat := by omega
        have h02 : 0 + (n - 1).toNat = n.toNat - 1 := by omega
        rw [h01, h02] at hloop
        have hfin : retryLoop n transport =
            (n.toNat, transport (n.toNat - 1)) := by
          unfold retryLoop
          exact hloop
        have hall := firstOkIn_none transport n.toNat 0 hfo
        have hlast : exceptOk (transport (n.toNat - 1)) = false :=
          hall (n.toNat - 1) (Nat.zero_le _) (by omega)
        refine ⟨by simp [hfin],
          fun j hj => hall j (Nat.zero_le j) (by omega), ?_⟩
        cases he : transport (n.toNat - 1) with
        | ok r => rw [he] at hlast; simp [exceptOk] at hlast
        | error e => exact ⟨e, rfl, by simp [hfin, he, resultOf]⟩

theorem claim_C1_witness :
    ((((New false).Retries 3).Do (fun _ => .ok ⟨"", []⟩)
        (fun _ => .error "conn refused") "b" "GET" ["http://x"]).attempts = 3 ∧
      (∀ j, j < 3 →
        exceptOk ((fun (_ : Nat) => (.error "conn refused" :
          Except String HTTPResponse)) j) = false) ∧
      ∃ e, (fun (_ : Nat) => (.error "conn refused" :
            Except String HTTPResponse)) (3 - 1) = .error e ∧
        (((New false).Retries 3).Do (fun _ => .ok ⟨"", []⟩)
          (fun _ => .error "conn refused") "b" "GET" ["http://x"]).result =
          .failure e) ∧
    (((New false).Retries 1).Do (fun _ => .ok ⟨"", []⟩)
      (fun _ => .error "conn refused") "b" "GET" ["http://x"]).attempts = 1 := by
  constructor
  · have h := (claim_C1_retry_counts (New false) 3 (fun _ => .ok ⟨"", []⟩)
      (fun _ => .error "conn refused") "b" "GET" ["http://x"]
      (((New false).Retries 3).URL "http://x")
      { method := "GET", url := { path := "", rawQuery := [] },
        headers := [], cookies := [], basicAuthHdr := none, body := none }
      (by decide)).2 (by decide)
    simpa [firstOkIn, exceptOk] using h
  · have h := (claim_C1_retry_counts (New false) 1 (fun _ => .ok ⟨"", []⟩)
      (fun _ => .error "conn refused") "b" "GET" ["http://x"]
      (((New false).Retries 1).URL "http://x")
      { method := "GET", url := { path := "", rawQuery := [] },
        headers := [], cookies := [], basicAuthHdr := none, body := none }
      (by decide)).1 (by decide)
    exact h.1

/- ------------------------------------------------------------------ -/
/- Claims C3 and C4: error handling of resolution.                      -/
/- ------------------------------------------------------------------ -/

/-- C3 counterexample: with a payload whose JSON encoding fails, the terminal
verb call does NOT fail with an encoding error — it succeeds, and the request
it sends carries no body (the encoder error was discarded by
`body, _ := jsonBodyData{...}.Body()`). -/
theorem claim_C3_counterexample :
    (((New false).JSONStruct (some (.failsWith "unsupported type"))).Do
        (fun _ => .ok ⟨"", []⟩) (fun _ => .ok ⟨200, "ok"⟩) "b" "POST"
        []).result = .success ⟨200, "ok"⟩ ∧
    ((((New false).JSONStruct (some (.failsWith "unsupported type"))).Do
        (fun _ => .ok ⟨"", []⟩) (fun _ => .ok ⟨200, "ok"⟩) "b" "POST"
        []).sent).map Request.body = some none := by decide

/-- C3 (amended): when the JSON encoding of a `JSONStruct` value or the form
encoding of a `Form` value fails, the error is silently discarded: the
content-type header is still set, the body becomes nil, the terminal verb
call reports no encoding error, and the request goes out with a missing
body. -/
theorem claim_C3_encoding_error_dropped (c : Client) (msg : String)
    (parse : String → Except String URLData) (u₀ : URLData)
    (transport : Nat → Except String HTTPResponse) (resp : HTTPResponse)
    (bnd method : String)
    (hparse : parse "" = .ok u₀) (htrans : transport 0 = .ok resp) :
    ((c.JSONStruct (some (.failsWith msg))).body = none ∧
      ((c.JSONStruct (some (.failsWith msg))).headers).lookup contentType =
        some jsonContentType) ∧
    ((c.Form (some (.failsWith msg))).body = none ∧
      ((c.Form (some (.failsWith msg))).headers).lookup contentType =
        some formContentType) ∧
    ∃ req : Request,
      ((New false).JSONStruct (some (.failsWith msg))).Do parse transport bnd
          method [] =
        { client := (New false).JSONStruct (some (.failsWith msg)),
          sent := some req, attempts := 1, result := .success resp } ∧
      req.body = none := by
  refine ⟨⟨?_, ?_⟩, ⟨?_, ?_⟩, ?_⟩
  · simp [Client.JSONStruct, jsonBodyData.Body]
  · simp [Client.JSONStruct, jsonBodyData.Body, Client.Header, lookup_mapSet]
  · simp [Client.Form, formBodyData.Body, queryValues]
  · simp [Client.Form, formBodyData.Body, queryValues, Client.Header,
      lookup_mapSet]
  · refine ⟨{ method := method, url := u₀,
               headers := mapSet [] contentType jsonContentType,
               cookies := [], basicAuthHdr := none, body := none }, ?_, rfl⟩
    have hprep : (((New false).JSONStruct (some (.failsWith msg))).URL
        (urlArg [])).prepareRequest parse bnd method =
        .success ((New false).JSONStruct (some (.failsWith msg)))
          { method := method, url := u₀,
            headers := mapSet [] contentType jsonContentType,
            cookies := [], basicAuthHdr := none, body := none } := by
      simp [Client.prepareRequest, Client.setupClient, Client.prepareFiles,
        Client.JSONStruct, jsonBodyData.Body, Client.Header, Client.URL,
        urlArg, New, hparse, mapSet]
    have hdo := do_success_shape ((New false).JSONStruct
      (some (.failsWith msg))) parse transport bnd method [] _ _ hprep
    rw [hdo]
    simp [retryLoop, Client.JSONStruct, Client.Header, New, retryGo, htrans,
      resultOf]

theorem claim_C3_witness :
    ((((New false).JSONStruct (some (.failsWith "boom"))).body = none ∧
      (((New false).JSONStruct (some (.failsWith "boom"))).headers).lookup
        contentType = some jsonContentType) ∧
    (((New false).Form (some (.failsWith "boom"))).body = none ∧
      (((New false).Form (some (.failsWith "boom"))).headers).lookup
        contentType = some formContentType) ∧
    ∃ req : Request,
      ((New false).JSONStruct (some (.failsWith "boom"))).Do
          (fun _ => .ok ⟨"", []⟩) (fun _ => .ok ⟨200, "ok"⟩) "b" "POST" [] =
        { client := (New false).JSONStruct (some (.failsWith "boom")),
          sent := some req, attempts := 1, result := .success ⟨200, "ok"⟩ } ∧
      req.body = none) :=
  claim_C3_encoding_error_dropped (New false) "boom"
    (fun _ => .ok ⟨"", []⟩) ⟨"", []⟩ (fun _ => .ok ⟨200, "ok"⟩) ⟨200, "ok"⟩
    "b" "POST" rfl rfl

theorem mkOrDot_ne_empty (l : List Char) :
    (if l = [] then "." else (⟨l⟩ : String)) ≠ "" := by
  split
  · decide
  · rename_i h
    intro hc
    exact h ((congrArg String.data hc).trans rfl)

/-- `clean` never returns the empty string. -/
theorem clean_ne_empty (s : String) : clean s ≠ "" := by
  unfold clean
  split
  · simp
  · dsimp only
    exact mkOrDot_ne_empty _

/-- C4 (code bug in the source): when the base URL is malformed and a
non-empty path has been configured, `prepareRequest` does not return the
`http.NewRequest` error — the `if err != nil` check sits after the blocks
that dereference `req`, so the code hits a nil-pointer dereference (a
panic).  Only a builder whose path, query, structs, headers, cookies and auth
are all empty reaches the error return. -/
theorem claim_C4_late_error_check (method e p : String)
    (parse : String → Except String URLData)
    (transport : Nat → Except String HTTPResponse) (bnd : String)
    (hparse : parse "" = .error e) (hp : p ≠ "") :
    (∃ c' : Client,
      ((New false).Path [p]).prepareRequest parse bnd method =
        .nilDeref c') ∧
    (((New false).Path [p]).Do parse transport bnd method []).result =
      .nilDeref ∧
    (((New false).Path [p]).Do parse transport bnd method []).sent = none ∧
    (New false).prepareRequest parse bnd method = .failure (New false) e := by
  have hpath : ((New false).Path [p]).path = clean p := by
    simp [Client.Path, New, hp, filepathJoin]
  have hne : ((New false).Path [p]).path ≠ "" := by
    rw [hpath]; exact clean_ne_empty p
  have hurl : ((New false).Path [p]).url = "" := by
    simp [Client.Path, New, hp]
  have hprep : ∃ c' : Client,
      ((New false).Path [p]).prepareRequest parse bnd method =
        .nilDeref c' := by
    refine ⟨if ¬ leadingSlash (((New false).Path [p]).path)
            then { (New false).Path [p] with
                    path := "/" ++ ((New false).Path [p]).path }
            else (New false).Path [p], ?_⟩
    unfold Client.prepareRequest
    have hsetup : ((New false).Path [p]).setupClient parse =
        .ok ((New false).Path [p]) := by
      simp [Client.setupClient, Client.Path, New, hp]
    have hfiles : ((New false).Path [p]).prepareFiles bnd =
        .ok ((New false).Path [p]) := by
      simp [Client.prepareFiles, Client.Path, New, hp]
    rw [hsetup]
    dsimp only
    rw [hfiles]
    dsimp only
    rw [hurl, hparse]
    simp [hne]
  refine ⟨hprep, ?_, ?_, ?_⟩
  · obtain ⟨c', hc'⟩ := hprep
    unfold Client.Do
    simp [urlArg, Client.URL, hc']
  · obtain ⟨c', hc'⟩ := hprep
    unfold Client.Do
    simp [urlArg, Client.URL, hc']
  · simp [Client.prepareRequest, Client.setupClient, Client.prepareFiles,
      New, hparse]

theorem claim_C4_witness :
    ((∃ c' : Client,
      ((New false).Path ["users"]).prepareRequest
          (fun _ => .error "parse \"://nohost\": missing protocol scheme")
          "b" "GET" = .nilDeref c') ∧
    (((New false).Path ["users"]).Do
        (fun _ => .error "parse \"://nohost\": missing protocol scheme")
        (fun _ => .error "conn") "b" "GET" []).result = .nilDeref ∧
    (((New false).Path ["users"]).Do
        (fun _ => .error "parse \"://nohost\": missing protocol scheme")
        (fun _ => .error "conn") "b" "GET" []).sent = none ∧
    (New false).prepareRequest
        (fun _ => .error "parse \"://nohost\": missing protocol scheme")
        "b" "GET" =
      .failure (New false) "parse \"://nohost\": missing protocol scheme") :=
  claim_C4_late_error_check "GET"
    "parse \"://nohost\": missing protocol scheme" "users"
    (fun _ => .error "parse \"://nohost\": missing protocol scheme")
    (fun _ => .error "conn") "b" rfl (by decide)

/- ------------------------------------------------------------------ -/
/- Claim C10: resolution mutates the builder.                           -/
/- ------------------------------------------------------------------ -/

/-- A builder holding one registered file, a path, a body and scalar policy
fields, with the remaining configuration empty. -/
def mkFileClient (url p : String) (b : Option String) (f : fileForm)
    (tmo tls n : Int) (dbg : Bool) : Client :=
  { query := [], queryStructs := [], headers := [], url := url, path := p,
    body := b, auth := ⟨"", ""⟩, cookies := [], files := [f], proxy := "",
    timeout := tmo, tlsHandshakeTimeout := tls, retries := n, debug := dbg }

theorem multipart_single_length (bnd : String) (f : fileForm) :
    (multipartBody bnd [f]).length =
      (multipartBody bnd [{ f with content := "" }]).length +
        f.content.length := by
  simp [multipartBody, multipartParts, formFilePart, String.length_append]
  omega

theorem slash_append_ne (p : String) : "/" ++ p ≠ p := by
  intro h
  have hlen := congrArg String.length h
  rw [String.length_append] at hlen
  have h1 : ("/" : String).length = 1 := by decide
  omega

theorem slash_append_ne_empty (p : String) : "/" ++ p ≠ "" := by
  intro h
  have hlen := congrArg String.length h
  rw [String.length_append] at hlen
  have h1 : ("/" : String).length = 1 := by decide
  have h2 : ("" : String).length = 0 := by decide
  omega

theorem leadingSlash_slash_append (p : String) :
    leadingSlash ("/" ++ p) = true := by
  simp [leadingSlash, String.data_append]

/-- C10: a terminal verb call mutates the builder beyond producing a request:
resolution prefixes the stored path with `/` when it lacks one, and with a
registered file it writes the multipart content type into the builder's
headers map and replaces the builder's body with the multipart buffer, so the
builder after the call differs from the builder before; and because the first
call consumed the file stream, a second verb call sends a different (empty-
file) multipart body. -/
theorem claim_C10_verb_call_mutates (url p : String) (b : Option String)
    (f : fileForm) (tmo tls n : Int) (dbg : Bool)
    (parse : String → Except String URLData) (u₀ : URLData)
    (transport : Nat → Except String HTTPResponse) (bnd method : String)
    (hrd : f.readErr = none) (hcontent : f.content ≠ "")
    (hp : p ≠ "") (hps : leadingSlash p = false)
    (hparse : parse url = .ok u₀) :
    ((mkFileClient url p b f tmo tls n dbg).Do parse transport bnd method
        []).client.path = "/" ++ p ∧
    ((((mkFileClient url p b f tmo tls n dbg).Do parse transport bnd method
        []).client).headers).lookup contentType =
      some (multipartContentType bnd) ∧
    ((mkFileClient url p b f tmo tls n dbg).Do parse transport bnd method
        []).client.body = some (multipartBody bnd [f]) ∧
    ((mkFileClient url p b f tmo tls n dbg).Do parse transport bnd method
        []).client ≠ mkFileClient url p b f tmo tls n dbg ∧
    ∃ req₁ req₂ : Request,
      ((mkFileClient url p b f tmo tls n dbg).Do parse transport bnd method
          []).sent = some req₁ ∧
      ((((mkFileClient url p b f tmo tls n dbg).Do parse transport bnd method
          []).client).Do parse transport bnd method []).sent = some req₂ ∧
      req₁.body = some (multipartBody bnd [f]) ∧
      req₂.body = some (multipartBody bnd [{ f with content := "" }]) ∧
      req₂.body ≠ req₁.body := by
  have hprep₁ : ((mkFileClient url p b f tmo tls n dbg).URL
      (urlArg [])).prepareRequest parse bnd method =
      .success
        (mkFileClient url ("/" ++ p)
          (some (multipartBody bnd [f])) { f with content := "" } tmo tls n
          dbg |>.Header contentType (multipartContentType bnd))
        { method := method,
          url := { path := filepathJoin u₀.path ("/" ++ p),
                   rawQuery := u₀.rawQuery },
          headers := [(contentType, multipartContentType bnd)],
          cookies := [], basicAuthHdr := none,
          body := some (multipartBody bnd [f]) } := by
    simp [Client.prepareRequest, Client.setupClient, Client.prepareFiles,
      mkFileClient, Client.URL, urlArg, filesReadError, hrd, consumeFile,
      Client.Header, mapSet, hparse, hp, hps, slash_append_ne_empty]
  have hdo₁ := do_success_shape (mkFileClient url p b f tmo tls n dbg)
    parse transport bnd method [] _ _ hprep₁
  have hprep₂ : (((mkFileClient url ("/" ++ p)
      (some (multipartBody bnd [f])) { f with content := "" } tmo tls n
      dbg |>.Header contentType (multipartContentType bnd)).URL
      (urlArg [])).prepareRequest parse bnd method) =
      .success
        (mkFileClient url ("/" ++ p)
          (some (multipartBody bnd [{ f with content := "" }]))
          { f with content := "" } tmo tls n dbg |>.Header contentType
          (multipartContentType bnd))
        { method := method,
          url := { path := filepathJoin u₀.path ("/" ++ p),
                   rawQuery := u₀.rawQuery },
          headers := [(contentType, multipartContentType bnd)],
          cookies := [], basicAuthHdr := none,
          body := some (multipartBody bnd [{ f with content := "" }]) } := by
    simp [Client.prepareRequest, Client.setupClient, Client.prepareFiles,
      mkFileClient, Client.URL, urlArg, filesReadError, hrd, consumeFile,
      Client.Header, mapSet, hparse, leadingSlash_slash_append,
      slash_append_ne_empty]
  have hbodyne : some (multipartBody bnd [{ f with content := "" }]) ≠
      some (multipartBody bnd [f]) := by
    intro h
    have h2 : multipartBody bnd [{ f with content := "" }] =
        multipartBody bnd [f] := by injection h
    have hlen := congrArg String.length h2
    have hml := multipart_single_length bnd f
    have hcl : 0 < f.content.length := by
      cases hfc : f.content.data with
      | nil =>
          exfalso
          apply hcontent
          have hmk : f.content = String.mk f.content.data := rfl
          rw [hmk, hfc]
      | cons a l =>
          have hlen : f.content.length = f.content.data.length := rfl
          rw [hlen, hfc]
          simp
    omega
  refine ⟨?_, ?_, ?_, ?_, ?_⟩
  · rw [hdo₁]
    simp [mkFileClient, Client.Header]
  · rw [hdo₁]
    simp [mkFileClient, Client.Header, mapSet, lookup_mapSet]
  · rw [hdo₁]
    simp [mkFileClient, Client.Header]
  · rw [hdo₁]
    intro h
    have hpth := congrArg Client.path h
    simp [mkFileClient, Client.Header] at hpth
    exact slash_append_ne p hpth
  · have hdo₂ := do_success_shape
      (mkFileClient url ("/" ++ p) (some (multipartBody bnd [f]))
        { f with content := "" } tmo tls n dbg |>.Header contentType
        (multipartContentType bnd))
      parse transport bnd method [] _ _ hprep₂
    refine ⟨{ method := method,
               url := { path := filepathJoin u₀.path ("/" ++ p),
                        rawQuery := u₀.rawQuery },
               headers := [(contentType, multipartContentType bnd)],
               cookies := [], basicAuthHdr := none,
               body := some (multipartBody bnd [f]) },
             { method := method,
               url := { path := filepathJoin u₀.path ("/" ++ p),
                        rawQuery := u₀.rawQuery },
               headers := [(contentType, multipartContentType bnd)],
               cookies := [], basicAuthHdr := none,
               body := some (multipartBody bnd [{ f with content := "" }]) },
             by rw [hdo₁], ?_, rfl, rfl, hbodyne⟩
    rw [hdo₁]
    dsimp only
    rw [hdo₂]

theorem claim_C10_witness :
    ((mkFileClient "http://x" "users" none ⟨"field", "a.txt", "data", none⟩
        0 0 0 false).Do (fun _ => .ok ⟨"", []⟩) (fun _ => .ok ⟨200, "ok"⟩)
        "b" "POST" []).client.path = "/" ++ "users" ∧
    ((((mkFileClient "http://x" "users" none ⟨"field", "a.txt", "data", none⟩
        0 0 0 false).Do (fun _ => .ok ⟨"", []⟩) (fun _ => .ok ⟨200, "ok"⟩)
        "b" "POST" []).client).headers).lookup contentType =
      some (multipartContentType "b") ∧
    ((mkFileClient "http://x" "users" none ⟨"field", "a.txt", "data", none⟩
        0 0 0 false).Do (fun _ => .ok ⟨"", []⟩) (fun _ => .ok ⟨200, "ok"⟩)
        "b" "POST" []).client.body =
      some (multipartBody "b" [⟨"field", "a.txt", "data", none⟩]) ∧
    ((mkFileClient "http://x" "users" none ⟨"field", "a.txt", "data", none⟩
        0 0 0 false).Do (fun _ => .ok ⟨"", []⟩) (fun _ => .ok ⟨200, "ok"⟩)
        "b" "POST" []).client ≠
      mkFileClient "http://x" "users" none ⟨"field", "a.txt", "data", none⟩
        0 0 0 false ∧
    ∃ req₁ req₂ : Request,
      ((mkFileClient "http://x" "users" none ⟨"field", "a.txt", "data", none⟩
          0 0 0 false).Do (fun _ => .ok ⟨"", []⟩) (fun _ => .ok ⟨200, "ok"⟩)
          "b" "POST" []).sent = some req₁ ∧
      ((((mkFileClient "http://x" "users" none
          ⟨"field", "a.txt", "data", none⟩ 0 0 0 false).Do
          (fun _ => .ok ⟨"", []⟩) (fun _ => .ok ⟨200, "ok"⟩) "b" "POST"
          []).client).Do (fun _ => .ok ⟨"", []⟩) (fun _ => .ok ⟨200, "ok"⟩)
          "b" "POST" []).sent = some req₂ ∧
      req₁.body = some (multipartBody "b" [⟨"field", "a.txt", "data", none⟩]) ∧
      req₂.body =
        some (multipartBody "b"
          [{ (⟨"field", "a.txt", "data", none⟩ : fileForm) with
              content := "" }]) ∧
      req₂.body ≠ req₁.body :=
  claim_C10_verb_call_mutates "http://x" "users" none
    ⟨"field", "a.txt", "data", none⟩ 0 0 0 false (fun _ => .ok ⟨"", []⟩)
    ⟨"", []⟩ (fun _ => .ok ⟨200, "ok"⟩) "b" "POST" rfl (by decide) (by decide)
    (by decide) rfl

/- ------------------------------------------------------------------ -/
/- Claim C2: cloning semantics.                                         -/
/- ------------------------------------------------------------------ -/

theorem getD_set_ne {α : Type} (l : List α) (i j : Nat) (x d : α)
    (hij : i ≠ j) : (l.set i x).getD j d = l.getD j d := by
  induction l generalizing i j with
  | nil => simp [List.set]
  | cons a tl ih =>
      cases i with
      | zero =>
          cases j with
          | zero => exact absurd rfl hij
          | succ j => simp [List.set, List.getD]
      | succ i =>
          cases j with
          | zero => simp [List.set, List.getD]
          | succ j =>
              simp only [List.set, List.getD_cons_succ]
              exact ih i j (fun h => hij (by rw [h]))

theorem getD_set_self {α : Type} (l : List α) (i : Nat) (x d : α)
    (hi : i < l.length) : (l.set i x).getD i d = x := by
  induction l generalizing i with
  | nil => simp at hi
  | cons a tl ih =>
      cases i with
      | zero => simp [List.set, List.getD]
      | succ i =>
          simp only [List.set, List.getD_cons_succ]
          exact ih i (by simpa using hi)

theorem take_set_of_le {α : Type} (l : List α) (i n : Nat) (x : α)
    (hn : n ≤ i) : (l.set i x).take n = l.take n := by
  induction l generalizing i n with
  | nil => simp
  | cons a tl ih =>
      cases i with
      | zero =>
          have hn0 : n = 0 := by omega
          subst hn0
          simp
      | succ i =>
          cases n with
          | zero => simp
          | succ n =>
              simp only [List.set, List.take_succ_cons]
              rw [ih i n (by omega)]

theorem take_succ_set_self {α : Type} (l : List α) (i : Nat) (x : α)
    (hi : i < l.length) : (l.set i x).take (i + 1) = l.take i ++ [x] := by
  induction l generalizing i with
  | nil => simp at hi
  | cons a tl ih =>
      cases i with
      | zero => simp
      | succ i =>
          simp only [List.set, List.take_succ_cons]
          rw [ih i (by simpa using hi)]
          simp

theorem take_writeAt_of_le {α : Type} (data : List α) (i : Nat) (x : α)
    (hi : i ≤ data.length) :
    (writeAt data i x).take i = data.take i := by
  unfold writeAt
  split
  · exact take_set_of_le data i i x (le_refl i)
  · exact List.take_append_of_le_length hi

theorem take_succ_writeAt {α : Type} (data : List α) (i : Nat) (x : α)
    (hi : i ≤ data.length) :
    (writeAt data i x).take (i + 1) = data.take i ++ [x] := by
  unfold writeAt
  split
  · exact take_succ_set_self data i x (by omega)
  · rename_i h
    have hieq : i = data.length := by omega
    subst hieq
    rw [List.take_of_length_le (by simp), List.take_of_length_le (by omega)]

/-- C2 counterexample: clone a fresh builder and append a file to the clone
via `File`: the original builder's files list stays empty — the append is
NOT visible on the original (the original's slice header keeps length 0),
even though the clone starts out sharing the same files slice. -/
theorem claim_C2_counterexample :
    (let m0 : Mem := ⟨[], [], [], [], 0⟩
     let r1 := NewH m0 false
     let r2 := r1.2.New r1.1
     let r3 := r2.2.File r2.1 ("data", none) "a.txt" "field"
     r2.2.files = r1.2.files ∧
     r3.1.filesView r1.2.files = [] ∧
     r3.1.filesView r3.2.files = [⟨"field", "a.txt", "data", none⟩]) := by
  decide

/-- C2 (amended): cloning with `New()` deep-copies the headers and query maps
into fresh map objects and value-copies the path, so mutating them on the
clone is invisible on the original; `queryStructs`, `cookies`, `files`,
`body` and the transport are copied as references (the clone's fields equal
the original's).  But appending a file to the clone via `File` is NOT
visible on the original builder's files list: the original's slice header
keeps its old length, and the append writes past that length or reallocates,
so only the clone's view gains the new part. -/
theorem claim_C2_clone_sharing (m : Mem) (c : ClientH)
    (hq : c.query < m.maps.length) (hh : c.headers < m.maps.length)
    (hfa : c.files.arr < m.fileArrs.length)
    (hfl : c.files.len ≤ (m.fileArrs.getD c.files.arr ⟨[], 0⟩).data.length)
    (k v : String) (f : String × Option String) (fn fd : String)
    (segs : List String) :
    ((c.New m).2.queryStructs = c.queryStructs ∧
     (c.New m).2.cookies = c.cookies ∧
     (c.New m).2.files = c.files ∧
     (c.New m).2.body = c.body ∧
     (c.New m).2.transport = c.transport ∧
     (c.New m).2.url = c.url ∧ (c.New m).2.path = c.path ∧
     (c.New m).2.auth = c.auth) ∧
    ((c.New m).2.query ≠ c.query ∧ (c.New m).2.headers ≠ c.headers ∧
     (c.New m).1.mapView (c.New m).2.headers = m.mapView c.headers ∧
     (c.New m).1.mapView (c.New m).2.query = m.mapView c.query) ∧
    (((c.New m).2.Header (c.New m).1 k v).1.mapView c.headers =
       m.mapView c.headers ∧
     ((c.New m).2.Query (c.New m).1 k v).1.mapView c.query =
       m.mapView c.query) ∧
    ((c.New m).2.Path (c.New m).1 segs).1 = (c.New m).1 ∧
    (((c.New m).2.File (c.New m).1 f fn fd).1.filesView c.files =
       m.filesView c.files ∧
     ((c.New m).2.File (c.New m).1 f fn fd).1.filesView
         ((c.New m).2.File (c.New m).1 f fn fd).2.files =
       m.filesView c.files ++ [⟨fd, fn, f.1, f.2⟩]) := by
  refine ⟨⟨rfl, rfl, rfl, rfl, rfl, rfl, rfl, rfl⟩, ⟨?_, ?_, ?_, ?_⟩,
    ⟨?_, ?_⟩, rfl, ⟨?_, ?_⟩⟩
  · dsimp only [ClientH.New, Mem.copyMap, Mem.allocMap]
    omega
  · dsimp only [ClientH.New, Mem.copyMap, Mem.allocMap]
    simp only [List.length_append, List.length_singleton]
    omega
  · dsimp only [ClientH.New, Mem.copyMap, Mem.allocMap, Mem.mapView]
    rw [List.getD_append_right _ _ _ _ (le_refl _), Nat.sub_self]
    simp only [List.getD_cons_zero]
    exact List.getD_append _ _ _ _ hh
  · dsimp only [ClientH.New, Mem.copyMap, Mem.allocMap, Mem.mapView]
    rw [List.getD_append _ _ _ _ (by simp)]
    exact (List.getD_append_right _ _ _ _ (le_refl _)).trans (by simp)
  · -- Header on the clone writes the fresh map object, not the original one
    dsimp only [ClientH.New, ClientH.Header, Mem.copyMap, Mem.allocMap,
      Mem.mapView]
    rw [getD_set_ne _ _ _ _ _ (by simp; omega)]
    rw [List.getD_append _ _ _ _ (by simp; omega)]
    exact List.getD_append _ _ _ _ hh
  · dsimp only [ClientH.New, ClientH.Query, Mem.copyMap, Mem.allocMap,
      Mem.mapView]
    rw [getD_set_ne _ _ _ _ _ (by omega)]
    rw [List.getD_append _ _ _ _ (by simp; omega)]
    exact List.getD_append _ _ _ _ hq
  · -- append on the clone: the original view is unchanged
    dsimp only [ClientH.New, ClientH.File, Mem.copyMap, Mem.allocMap,
      Mem.filesView]
    unfold goAppend
    dsimp only
    split
    · rw [getD_set_self _ _ _ _ hfa]
      exact take_writeAt_of_le _ _ _ hfl
    · exact congrArg (fun l => List.take c.files.len l)
        (congrArg GoArr.data (List.getD_append _ _ _ _ hfa))
  · -- while the clone view gains exactly the new part
    dsimp only [ClientH.New, ClientH.File, Mem.copyMap, Mem.allocMap,
      Mem.filesView]
    unfold goAppend
    dsimp only
    split
    · rw [getD_set_self _ _ _ _ hfa]
      exact take_succ_writeAt _ _ _ hfl
    · rw [List.getD_append_right _ _ _ _ (le_refl _), Nat.sub_self]
      simp only [List.getD_cons_zero]
      rw [List.take_of_length_le (by simp [List.length_take])]

theorem claim_C2_witness :
    (let m0 : Mem := ⟨[[("k", "v")]], [⟨[], 0⟩], [], [], 0⟩
     let c : ClientH :=
       { query := 0, queryStructs := ⟨0, 0⟩, headers := 0, url := "",
         path := "", body := none, auth := ⟨"", ""⟩, cookies := ⟨0, 0⟩,
         files := ⟨0, 0⟩, proxy := "", timeout := 0,
         tlsHandshakeTimeout := 0, retries := 0, debug := false,
         transport := 0 }
     ((c.New m0).2.queryStructs = c.queryStructs ∧
      (c.New m0).2.cookies = c.cookies ∧
      (c.New m0).2.files = c.files ∧
      (c.New m0).2.body = c.body ∧
      (c.New m0).2.transport = c.transport ∧
      (c.New m0).2.url = c.url ∧ (c.New m0).2.path = c.path ∧
      (c.New m0).2.auth = c.auth) ∧
     ((c.New m0).2.query ≠ c.query ∧ (c.New m0).2.headers ≠ c.headers ∧
      (c.New m0).1.mapView (c.New m0).2.headers = m0.mapView c.headers ∧
      (c.New m0).1.mapView (c.New m0).2.query = m0.mapView c.query) ∧
     (((c.New m0).2.Header (c.New m0).1 "K" "V").1.mapView c.headers =
        m0.mapView c.headers ∧
      ((c.New m0).2.Query (c.New m0).1 "K" "V").1.mapView c.query =
        m0.mapView c.query) ∧
     ((c.New m0).2.Path (c.New m0).1 ["users"]).1 = (c.New m0).1 ∧
     (((c.New m0).2.File (c.New m0).1 ("data", none) "a.txt" "fld").1.filesView
         c.files = m0.filesView c.files ∧
      ((c.New m0).2.File (c.New m0).1 ("data", none) "a.txt" "fld").1.filesView
          ((c.New m0).2.File (c.New m0).1 ("data", none) "a.txt" "fld").2.files
        = m0.filesView c.files ++ [⟨"fld", "a.txt", "data", none⟩])) :=
  claim_C2_clone_sharing _ _ (by decide) (by decide) (by decide) (by decide)
    "K" "V" ("data", none) "a.txt" "fld" ["users"]

/- ------------------------------------------------------------------ -/
/- Claim C5: path joining.  To speak about arbitrary leading/trailing   -/
/- slash decorations we characterize `clean` on inputs built from       -/
/- slash-free path segments separated by runs of slashes.               -/
/- ------------------------------------------------------------------ -/

/-- A plain path segment: non-empty, no separator, no dots. -/
def IsWord (w : List Char) : Prop := w ≠ [] ∧ '/' ∉ w ∧ '.' ∉ w

/-- A sequence of segments, each followed by a run of slashes. -/
def glueWords : List (List Char × Nat) → List Char
  | [] => []
  | p :: rest => p.1 ++ List.replicate p.2 '/' ++ glueWords rest

/-- Segments joined by exactly one slash. -/
def joinW : List (List Char) → List Char
  | [] => []
  | w :: rest => w ++ (rest.map (fun v => '/' :: v)).flatten

/-- Between two segments there is at least one slash (the run after the last
segment may be empty). -/
def SepsOK : List (List Char × Nat) → Prop
  | [] => True
  | [_] => True
  | p :: rest => 1 ≤ p.2 ∧ SepsOK rest

theorem atEnd_replicate (k : Nat) :
    atEnd (List.replicate k '/') = true := by
  cases k <;> simp [atEnd, List.replicate_succ]

theorem atEnd_replicate_append (k : Nat) (t : List Char) (hk : 1 ≤ k) :
    atEnd (List.replicate k '/' ++ t) = true := by
  cases k with
  | zero => omega
  | succ k => simp [atEnd, List.replicate_succ]

/-- Runs of slashes at an element boundary are skipped. -/
theorem cleanLoop_slashes (k : Nat) (t : List Char) (rooted : Bool)
    (d : Nat) (out : List Char) :
    cleanLoop (List.replicate k '/' ++ t) false rooted d out =
      cleanLoop t false rooted d out := by
  induction k with
  | zero => simp
  | succ k ih => simp [List.replicate_succ, cleanLoop, ih]

/-- Inside the copy loop, a slash-free run of characters is appended to the
output, and the scanner continues at the following boundary. -/
theorem cleanLoop_inWord (w : List Char) (t : List Char) (rooted : Bool)
    (d : Nat) (out : List Char) (hw : '/' ∉ w) (ht : atEnd t = true) :
    cleanLoop (w ++ t) true rooted d out =
      cleanLoop t false rooted d (out ++ w) := by
  induction w generalizing out with
  | nil =>
      cases t with
      | nil => simp [cleanLoop]
      | cons c t' =>
          have hc : c = '/' := by simpa [atEnd] using ht
          subst hc
          simp [cleanLoop]
  | cons c ws ih =>
      have hc : ¬ c = '/' := fun h => hw (by simp [h])
      have hws : '/' ∉ ws := fun h => hw (by simp [h])
      simp only [List.cons_append, cleanLoop, if_neg hc, List.append_eq]
      rw [ih (out ++ [c]) hws]
      simp

/-- At an element boundary, a plain segment is emitted after the separator
rule, and the scanner continues at the next boundary. -/
theorem cleanLoop_word (w : List Char) (t : List Char) (rooted : Bool)
    (d : Nat) (out : List Char) (hw : IsWord w) (ht : atEnd t = true) :
    cleanLoop (w ++ t) false rooted d out =
      cleanLoop t false rooted d (sepOut rooted out ++ w) := by
  obtain ⟨hne, hslash, hdot⟩ := hw
  cases w with
  | nil => exact absurd rfl hne
  | cons c ws =>
      have hc : ¬ c = '/' := fun h => hslash (by simp [h])
      have hcdot : ¬ c = '.' := fun h => hdot (by simp [h])
      have hws : '/' ∉ ws := fun h => hslash (by simp [h])
      simp only [List.cons_append, cleanLoop, if_neg hc, hcdot, false_and,
        if_false, List.append_eq]
      rw [cleanLoop_inWord ws t rooted d _ hws ht]
      simp

/-- The scanner over a whole sequence of decorated segments. -/
theorem cleanLoop_glue (ps : List (List Char × Nat)) (rooted : Bool)
    (d : Nat) (out : List Char)
    (hw : ∀ p ∈ ps, IsWord p.1) (hs : SepsOK ps) :
    cleanLoop (glueWords ps) false rooted d out =
      ps.foldl (fun o p => sepOut rooted o ++ p.1) out := by
  induction ps generalizing out with
  | nil => simp [glueWords, cleanLoop]
  | cons p rest ih =>
      have hword : IsWord p.1 := hw p (by simp)
      have hend : atEnd (List.replicate p.2 '/' ++ glueWords rest) = true := by
        cases rest with
        | nil => simpa [glueWords] using atEnd_replicate p.2
        | cons q qs =>
            have hk : 1 ≤ p.2 := hs.1
            exact atEnd_replicate_append _ _ hk
      have hrest : ∀ q ∈ rest, IsWord q.1 := fun q hq => hw q (by simp [hq])
      have hsrest : SepsOK rest := by
        cases rest with
        | nil => trivial
        | cons q qs => exact hs.2
      simp only [glueWords, List.append_assoc]
      rw [cleanLoop_word p.1 _ rooted d out hword hend,
        cleanLoop_slashes, ih _ hrest hsrest]
      rfl

theorem foldl_sep_tail (rooted : Bool) (ps : List (List Char × Nat)) :
    ∀ (out : List Char),
    (if rooted = true then 2 ≤ out.length else 1 ≤ out.length) →
    ps.foldl (fun o p => sepOut rooted o ++ p.1) out =
      out ++ (ps.map (fun p => '/' :: p.1)).flatten := by
  induction ps with
  | nil => intro out _; simp
  | cons p rest ih =>
      intro out hout
      have hsep : sepOut rooted out = out ++ ['/'] := by
        unfold sepOut
        rw [if_pos]
        cases rooted with
        | true => exact Or.inl ⟨rfl, by simp at hout; omega⟩
        | false => exact Or.inr ⟨rfl, by simp at hout; omega⟩
      rw [List.foldl_cons, hsep]
      rw [ih (out ++ ['/'] ++ p.1) (by
        cases rooted <;> simp [List.length_append] <;> simp at hout <;> omega)]
      simp

theorem foldl_sep_start_rooted (p : List Char × Nat)
    (rest : List (List Char × Nat)) (hp : p.1 ≠ []) :
    (p :: rest).foldl (fun o q => sepOut true o ++ q.1) ['/'] =
      '/' :: joinW ((p :: rest).map Prod.fst) := by
  have hplen : 1 ≤ p.1.length := by
    cases hp1 : p.1 with
    | nil => exact absurd hp1 hp
    | cons a l => simp
  rw [List.foldl_cons]
  have hsep : sepOut true ['/'] = ['/'] := by
    unfold sepOut
    rw [if_neg]
    simp
  rw [hsep]
  rw [foldl_sep_tail true rest (['/'] ++ p.1) (by
    simp [List.length_append]; omega)]
  simp [joinW, List.map_map]
  rfl

theorem foldl_sep_start_unrooted (p : List Char × Nat)
    (rest : List (List Char × Nat)) (hp : p.1 ≠ []) :
    (p :: rest).foldl (fun o q => sepOut false o ++ q.1) [] =
      joinW ((p :: rest).map Prod.fst) := by
  have hplen : 1 ≤ p.1.length := by
    cases hp1 : p.1 with
    | nil => exact absurd hp1 hp
    | cons a l => simp
  rw [List.foldl_cons]
  have hsep : sepOut false [] = [] := by
    unfold sepOut
    rw [if_neg]
    simp
  rw [hsep]
  rw [foldl_sep_tail false rest ([] ++ p.1) (by simp; omega)]
  simp [joinW, List.map_map]
  rfl

theorem mk_ne_empty {l : List Char} (h : l ≠ []) : (⟨l⟩ : String) ≠ "" :=
  fun hc => h ((congrArg String.data hc).trans rfl)

/-- What `Clean` produces on a path made of plain segments decorated with
arbitrary runs of slashes: the segments joined by exactly one slash, with a
single leading slash iff the input had any. -/
theorem clean_glue (k₀ : Nat) (ps : List (List Char × Nat)) (hne : ps ≠ [])
    (hw : ∀ p ∈ ps, IsWord p.1) (hs : SepsOK ps) :
    clean ⟨List.replicate k₀ '/' ++ glueWords ps⟩ =
      ⟨(if 1 ≤ k₀ then ['/'] else []) ++ joinW (ps.map Prod.fst)⟩ := by
  obtain ⟨p, rest, rfl⟩ : ∃ q qs, ps = q :: qs := by
    cases ps with
    | nil => exact absurd rfl hne
    | cons q qs => exact ⟨q, qs, rfl⟩
  obtain ⟨c, ws, hp1⟩ : ∃ c ws, p.1 = c :: ws := by
    cases hq : p.1 with
    | nil => exact absurd hq (hw p (by simp)).1
    | cons c ws => exact ⟨c, ws, rfl⟩
  have hcslash : ¬ c = '/' := fun h => (hw p (by simp)).2.1 (by simp [hp1, h])
  have hjoin_ne : joinW ((p :: rest).map Prod.fst) ≠ [] := by
    simp only [List.map_cons, joinW, hp1]
    simp
  cases k₀ with
  | zero =>
      have hglue : List.replicate 0 '/' ++ glueWords (p :: rest) =
          c :: (ws ++ List.replicate p.2 '/' ++ glueWords rest) := by
        simp [glueWords, hp1]
      rw [hglue]
      have hmkne : (⟨c :: (ws ++ List.replicate p.2 '/' ++ glueWords rest)⟩ :
          String) ≠ "" := mk_ne_empty (by simp)
      unfold clean
      rw [if_neg hmkne]
      have hhead : decide ((c :: (ws ++ List.replicate p.2 '/' ++
          glueWords rest) : List Char).head? = some '/') = false := by
        simp [hcslash]
      dsimp only
      rw [hhead]
      simp only [Bool.false_eq_true, if_false]
      rw [← hglue]
      simp only [List.replicate, List.nil_append]
      rw [cleanLoop_glue _ _ _ _ hw hs]
      rw [foldl_sep_start_unrooted p rest (by simp [hp1])]
      rw [if_neg (by simpa using hjoin_ne)]
      simp
  | succ s =>
      have hglue : List.replicate (s + 1) '/' ++ glueWords (p :: rest) =
          '/' :: (List.replicate s '/' ++ glueWords (p :: rest)) := by
        simp [List.replicate_succ]
      rw [hglue]
      have hmkne : (⟨'/' :: (List.replicate s '/' ++
          glueWords (p :: rest))⟩ : String) ≠ "" := mk_ne_empty (by simp)
      unfold clean
      rw [if_neg hmkne]
      have hhead : decide (('/' :: (List.replicate s '/' ++
          glueWords (p :: rest)) : List Char).head? = some '/') = true := by
        simp
      dsimp only
      rw [hhead]
      simp only [if_true]
      rw [← hglue]
      rw [cleanLoop_slashes (s + 1) (glueWords (p :: rest)) true 1 ['/']]
      rw [cleanLoop_glue _ _ _ _ hw hs]
      rw [foldl_sep_start_rooted p rest (by simp [hp1])]
      rw [if_neg (by simp)]
      simp

theorem mk_append (x y : List Char) :
    (⟨x⟩ : String) ++ (⟨y⟩ : String) = ⟨x ++ y⟩ := rfl

theorem joinW_cons₂ (w r : List Char) (rs : List (List Char)) :
    joinW (w :: r :: rs) = w ++ '/' :: joinW (r :: rs) := by
  simp [joinW]

theorem joinW_append (xs ys : List (List Char)) (hx : xs ≠ []) :
    joinW (xs ++ ys) = joinW xs ++ (ys.map (fun v => '/' :: v)).flatten := by
  cases xs with
  | nil => exact absurd rfl hx
  | cons w rest => simp [joinW]

theorem glueWords_append (xs ys : List (List Char × Nat)) :
    glueWords (xs ++ ys) = glueWords xs ++ glueWords ys := by
  induction xs with
  | nil => simp [glueWords]
  | cons p rest ih => simp [glueWords, ih]

/-- The base path's segments, each followed by one separator; the run after
the last segment is `kL` long. -/
def withSeps : List (List Char) → Nat → List (List Char × Nat)
  | [], _ => []
  | [w], kL => [(w, kL)]
  | w :: rest, kL => (w, 1) :: withSeps rest kL

theorem glue_withSeps (bws : List (List Char)) (kL : Nat) (h : bws ≠ []) :
    glueWords (withSeps bws kL) = joinW bws ++ List.replicate kL '/' := by
  induction bws with
  | nil => exact absurd rfl h
  | cons w rest ih =>
      cases rest with
      | nil => simp [withSeps, glueWords, joinW]
      | cons r rs =>
          rw [show withSeps (w :: r :: rs) kL =
              (w, 1) :: withSeps (r :: rs) kL from rfl]
          simp only [glueWords, ih (by simp), joinW_cons₂]
          simp [List.replicate]

theorem map_fst_withSeps (bws : List (List Char)) (kL : Nat) :
    (withSeps bws kL).map Prod.fst = bws := by
  induction bws with
  | nil => simp [withSeps]
  | cons w rest ih =>
      cases rest with
      | nil => simp [withSeps]
      | cons r rs =>
          rw [show withSeps (w :: r :: rs) kL =
              (w, 1) :: withSeps (r :: rs) kL from rfl]
          simp only [List.map_cons, ih]

theorem mem_withSeps {bws : List (List Char)} {kL : Nat}
    {p : List Char × Nat} (hp : p ∈ withSeps bws kL) : p.1 ∈ bws := by
  induction bws with
  | nil => simp [withSeps] at hp
  | cons w rest ih =>
      cases rest with
      | nil =>
          simp [withSeps] at hp
          simp [hp]
      | cons r rs =>
          rw [show withSeps (w :: r :: rs) kL =
              (w, 1) :: withSeps (r :: rs) kL from rfl] at hp
          rcases List.mem_cons.1 hp with h | h
          · simp [h]
          · simp [ih h]

theorem withSeps_pos {bws : List (List Char)} {kL : Nat} (hk : 1 ≤ kL) :
    ∀ p ∈ withSeps bws kL, 1 ≤ p.2 := by
  induction bws with
  | nil => simp [withSeps]
  | cons w rest ih =>
      cases rest with
      | nil =>
          intro p hp
          simp [withSeps] at hp
          simp [hp, hk]
      | cons r rs =>
          intro p hp
          rw [show withSeps (w :: r :: rs) kL =
              (w, 1) :: withSeps (r :: rs) kL from rfl] at hp
          rcases List.mem_cons.1 hp with h | h
          · simp [h]
          · exact ih p h

theorem sepsOK_append (xs ys : List (List Char × Nat))
    (hx : ∀ p ∈ xs, 1 ≤ p.2) (hy : SepsOK ys) : SepsOK (xs ++ ys) := by
  induction xs with
  | nil => simpa using hy
  | cons x rest ih =>
      have hrest := ih (fun p hp => hx p (by simp [hp]))
      rw [List.cons_append]
      cases hre : rest ++ ys with
      | nil => trivial
      | cons q l =>
          rw [show SepsOK (x :: q :: l) = (1 ≤ x.2 ∧ SepsOK (q :: l))
              from rfl]
          rw [hre] at hrest
          exact ⟨hx x (by simp), hrest⟩

theorem clean_one_word (k j : Nat) (w : List Char) (hw : IsWord w) :
    clean ⟨List.replicate k '/' ++ (w ++ List.replicate j '/')⟩ =
      ⟨(if 1 ≤ k then ['/'] else []) ++ w⟩ := by
  have h := clean_glue k [(w, j)] (by simp)
    (by intro p hp; simp at hp; rw [hp]; exact hw) trivial
  simpa [glueWords, joinW, List.append_assoc] using h

theorem clean_two_words (k kab j : Nat) (wa wb : List Char)
    (hwa : IsWord wa) (hwb : IsWord wb) (hkab : 1 ≤ kab) :
    clean ⟨List.replicate k '/' ++
        (wa ++ (List.replicate kab '/' ++ (wb ++ List.replicate j '/')))⟩ =
      ⟨(if 1 ≤ k then ['/'] else []) ++ (wa ++ '/' :: wb)⟩ := by
  have h := clean_glue k [(wa, kab), (wb, j)] (by simp)
    (by
      intro p hp
      simp at hp
      rcases hp with hp | hp <;> rw [hp]
      · exact hwa
      · exact hwb)
    ⟨hkab, trivial⟩
  simpa [glueWords, joinW, List.append_assoc] using h

theorem clean_base_two (bws : List (List Char)) (wa wb : List Char)
    (hb : ∀ w ∈ bws, IsWord w) (hbne : bws ≠ [])
    (hwa : IsWord wa) (hwb : IsWord wb) :
    clean ⟨'/' :: (joinW bws ++ ('/' :: ('/' :: (wa ++ '/' :: wb))))⟩ =
      ⟨'/' :: (joinW bws ++ ('/' :: (wa ++ '/' :: wb)))⟩ := by
  have h := clean_glue 1 (withSeps bws 2 ++ [(wa, 1), (wb, 0)])
    (by simp)
    (by
      intro p hp
      rcases List.mem_append.1 hp with hp | hp
      · exact hb p.1 (mem_withSeps hp)
      · simp at hp
        rcases hp with hp | hp <;> rw [hp]
        · exact hwa
        · exact hwb)
    (sepsOK_append _ _ (withSeps_pos (by omega)) ⟨by omega, trivial⟩)
  rw [glueWords_append, glue_withSeps bws 2 hbne] at h
  rw [List.map_append, map_fst_withSeps,
    joinW_append bws _ hbne] at h
  simpa [glueWords, List.append_assoc, List.replicate] using h

theorem slash_lit : ("/" : String) = ⟨['/']⟩ := rfl

/-- The stored path after `Path(a)` then `Path(b)` where `a`, `b` are plain
segments decorated with arbitrary leading and trailing slash runs: the two
segments joined by exactly one slash, with a leading slash iff `a` had
one. -/
theorem path_after_two (wa wb : List Char) (hwa : IsWord wa)
    (hwb : IsWord wb) (i₁ i₂ j₁ j₂ : Nat) :
    ((New false).Path
        [⟨List.replicate i₁ '/' ++ (wa ++ List.replicate i₂ '/')⟩]).Path
        [⟨List.replicate j₁ '/' ++ (wb ++ List.replicate j₂ '/')⟩] =
      { New false with
          path := ⟨(if 1 ≤ i₁ then ['/'] else []) ++ (wa ++ '/' :: wb)⟩ } := by
  have hAd : List.replicate i₁ '/' ++ (wa ++ List.replicate i₂ '/') ≠ [] := by
    intro h
    rcases List.append_eq_nil.1 h with ⟨_, h2⟩
    rcases List.append_eq_nil.1 h2 with ⟨h3, _⟩
    exact hwa.1 h3
  have hBd : List.replicate j₁ '/' ++ (wb ++ List.replicate j₂ '/') ≠ [] := by
    intro h
    rcases List.append_eq_nil.1 h with ⟨_, h2⟩
    rcases List.append_eq_nil.1 h2 with ⟨h3, _⟩
    exact hwb.1 h3
  have hA := mk_ne_empty hAd
  have hB := mk_ne_empty hBd
  have hP₁ : ((if 1 ≤ i₁ then ['/'] else []) ++ wa : List Char) ≠ [] := by
    intro h
    exact hwa.1 (List.append_eq_nil.1 h).2
  simp only [Client.Path, List.foldl_cons, List.foldl_nil]
  rw [if_pos hA, if_pos hB]
  have hnew : (New false).path = "" := rfl
  rw [hnew]
  rw [show filepathJoin ""
      ⟨List.replicate i₁ '/' ++ (wa ++ List.replicate i₂ '/')⟩ =
      clean ⟨List.replicate i₁ '/' ++ (wa ++ List.replicate i₂ '/')⟩ by
    unfold filepathJoin
    rw [if_neg (by simp), if_pos hA]]
  rw [clean_one_word i₁ i₂ wa hwa]
  rw [show filepathJoin ⟨(if 1 ≤ i₁ then ['/'] else []) ++ wa⟩
      ⟨List.replicate j₁ '/' ++ (wb ++ List.replicate j₂ '/')⟩ =
      clean (⟨(if 1 ≤ i₁ then ['/'] else []) ++ wa⟩ ++ "/" ++
        ⟨List.replicate j₁ '/' ++ (wb ++ List.replicate j₂ '/')⟩) by
    unfold filepathJoin
    rw [if_pos (mk_ne_empty hP₁)]]
  rw [slash_lit, mk_append, mk_append]
  by_cases hi : 1 ≤ i₁
  · rw [if_pos hi]
    rw [show ((['/'] ++ wa) ++ ['/']) ++
        (List.replicate j₁ '/' ++ (wb ++ List.replicate j₂ '/')) =
        List.replicate 1 '/' ++
          (wa ++ (List.replicate (j₁ + 1) '/' ++
            (wb ++ List.replicate j₂ '/'))) by
      simp [List.append_assoc, List.replicate_succ, List.replicate]]
    rw [clean_two_words 1 (j₁ + 1) j₂ wa wb hwa hwb (by omega)]
    simp
  · rw [if_neg hi]
    rw [show (([] ++ wa) ++ ['/']) ++
        (List.replicate j₁ '/' ++ (wb ++ List.replicate j₂ '/')) =
        List.replicate 0 '/' ++
          (wa ++ (List.replicate (j₁ + 1) '/' ++
            (wb ++ List.replicate j₂ '/'))) by
      simp [List.append_assoc, List.replicate_succ, List.replicate]]
    rw [clean_two_words 0 (j₁ + 1) j₂ wa wb hwa hwb (by omega)]
    simp

/-- Joining a canonical (or empty) base path with the fixed `/a/b` path gives
base, `a` and `b` separated by exactly one slash. -/
theorem join_base (basePath : String) (bws : List (List Char))
    (wa wb : List Char) (hwa : IsWord wa) (hwb : IsWord wb)
    (hbase : basePath = "" ∨
      (bws ≠ [] ∧ (∀ w ∈ bws, IsWord w) ∧ basePath = ⟨'/' :: joinW bws⟩)) :
    filepathJoin basePath ⟨'/' :: (wa ++ '/' :: wb)⟩ =
      basePath ++ "/" ++ (⟨wa⟩ : String) ++ "/" ++ (⟨wb⟩ : String) := by
  rcases hbase with hb | ⟨hbne, hbw, hb⟩
  · subst hb
    have htarget : ("" : String) ++ "/" ++ (⟨wa⟩ : String) ++ "/" ++
        (⟨wb⟩ : String) = (⟨'/' :: (wa ++ '/' :: wb)⟩ : String) := by
      rw [show ("" : String) = ⟨[]⟩ from rfl, slash_lit, mk_append,
        mk_append, mk_append, mk_append]
      exact congrArg String.mk (by simp)
    rw [show filepathJoin "" ⟨'/' :: (wa ++ '/' :: wb)⟩ =
        clean ⟨'/' :: (wa ++ '/' :: wb)⟩ by
      unfold filepathJoin
      rw [if_neg (by simp), if_pos (mk_ne_empty (by simp))]]
    rw [show ('/' :: (wa ++ '/' :: wb) : List Char) =
        List.replicate 1 '/' ++
          (wa ++ (List.replicate 1 '/' ++ (wb ++ List.replicate 0 '/'))) by
      simp [List.replicate]]
    rw [clean_two_words 1 1 0 wa wb hwa hwb (by omega)]
    rw [htarget]
    exact congrArg String.mk (by simp)
  · subst hb
    have htarget : (⟨'/' :: joinW bws⟩ : String) ++ "/" ++ (⟨wa⟩ : String) ++
        "/" ++ (⟨wb⟩ : String) =
        (⟨'/' :: (joinW bws ++ '/' :: (wa ++ '/' :: wb))⟩ : String) := by
      rw [slash_lit, mk_append, mk_append, mk_append, mk_append]
      exact congrArg String.mk (by simp [List.append_assoc])
    rw [htarget]
    rw [show filepathJoin ⟨'/' :: joinW bws⟩ ⟨'/' :: (wa ++ '/' :: wb)⟩ =
        clean (⟨'/' :: joinW bws⟩ ++ "/" ++ ⟨'/' :: (wa ++ '/' :: wb)⟩) by
      unfold filepathJoin
      rw [if_pos (mk_ne_empty (by simp))]]
    rw [slash_lit, mk_append, mk_append]
    rw [show (('/' :: joinW bws) ++ ['/']) ++ ('/' :: (wa ++ '/' :: wb)) =
        '/' :: (joinW bws ++ ('/' :: ('/' :: (wa ++ '/' :: wb)))) by
      simp [List.append_assoc]]
    rw [clean_base_two bws wa wb hbw hbne hwa hwb]

/-- Resolution of a fresh builder whose only configuration is a path that
already starts with a slash. -/
theorem prepare_rooted_path (p : String) (hp : p ≠ "")
    (hlead : leadingSlash p = true) (parse : String → Except String URLData)
    (u₀ : URLData) (hparse : parse "" = .ok u₀) (bnd method : String) :
    ({ New false with path := p } : Client).prepareRequest parse bnd method =
      .success { New false with path := p }
        { method := method,
          url := { path := filepathJoin u₀.path p, rawQuery := u₀.rawQuery },
          headers := [], cookies := [], basicAuthHdr := none,
          body := none } := by
  simp [Client.prepareRequest, Client.setupClient, Client.prepareFiles, New,
    hparse, hp, hlead]

/-- Resolution of a fresh builder whose only configuration is a path missing
its leading slash: the stored path is rewritten to `/`-prefixed form first. -/
theorem prepare_relative_path (p : String) (hp : p ≠ "")
    (hlead : leadingSlash p = false) (parse : String → Except String URLData)
    (u₀ : URLData) (hparse : parse "" = .ok u₀) (bnd method : String) :
    ({ New false with path := p } : Client).prepareRequest parse bnd method =
      .success { New false with path := "/" ++ p }
        { method := method,
          url := { path := filepathJoin u₀.path ("/" ++ p),
                   rawQuery := u₀.rawQuery },
          headers := [], cookies := [], basicAuthHdr := none,
          body := none } := by
  have hp' : ("/" ++ p : String) ≠ "" := by
    intro h
    have := congrArg String.length h
    rw [String.length_append] at this
    have h1 : ("/" : String).length = 1 := by decide
    have h2 : ("" : String).length = 0 := by decide
    omega
  simp [Client.prepareRequest, Client.setupClient, Client.prepareFiles, New,
    hparse, hp, hlead, hp']

/-- C5: after `Path(a)` then `Path(b)` — where `a` and `b` are plain segments
carrying arbitrary runs of leading and trailing slashes — the resolved
request path is the base URL's path joined with the two segments with
exactly one `/` between each pair, and an empty-string segment passed to
`Path` is ignored (it does not reset the path). -/
theorem claim_C5_path_join (wa wb : List Char) (hwa : IsWord wa)
    (hwb : IsWord wb) (i₁ i₂ j₁ j₂ : Nat)
    (bws : List (List Char)) (basePath : String)
    (hbase : basePath = "" ∨
      (bws ≠ [] ∧ (∀ w ∈ bws, IsWord w) ∧ basePath = ⟨'/' :: joinW bws⟩))
    (parse : String → Except String URLData) (rq : List (String × String))
    (bnd method : String) (hparse : parse "" = .ok ⟨basePath, rq⟩) :
    (∀ c : Client, c.Path [""] = c) ∧
    ∃ c' : Client, ∃ req : Request,
      (((New false).Path
          [⟨List.replicate i₁ '/' ++ (wa ++ List.replicate i₂ '/')⟩]).Path
          [⟨List.replicate j₁ '/' ++
            (wb ++ List.replicate j₂ '/')⟩]).prepareRequest parse bnd method =
        .success c' req ∧
      req.url.path =
        basePath ++ "/" ++ (⟨wa⟩ : String) ++ "/" ++ (⟨wb⟩ : String) := by
  refine ⟨fun c => by simp [Client.Path], ?_⟩
  rw [path_after_two wa wb hwa hwb i₁ i₂ j₁ j₂]
  have hfixdata : ∀ x : List Char, (⟨'/' :: x⟩ : String) ≠ "" :=
    fun x => mk_ne_empty (by simp)
  by_cases hi : 1 ≤ i₁
  · have hP₂ : (⟨(if 1 ≤ i₁ then ['/'] else []) ++ (wa ++ '/' :: wb)⟩ :
        String) = ⟨'/' :: (wa ++ '/' :: wb)⟩ := by
      exact congrArg String.mk (by simp [hi])
    rw [hP₂]
    rw [prepare_rooted_path _ (hfixdata _) (by simp [leadingSlash]) parse
      ⟨basePath, rq⟩ hparse bnd method]
    exact ⟨_, _, rfl, join_base basePath bws wa wb hwa hwb hbase⟩
  · have hP₂ : (⟨(if 1 ≤ i₁ then ['/'] else []) ++ (wa ++ '/' :: wb)⟩ :
        String) = ⟨wa ++ '/' :: wb⟩ := by
      exact congrArg String.mk (by simp [hi])
    rw [hP₂]
    obtain ⟨c, ws, hwc⟩ : ∃ c ws, wa = c :: ws := by
      cases hq : wa with
      | nil => exact absurd hq hwa.1
      | cons c ws => exact ⟨c, ws, rfl⟩
    have hcslash : ¬ c = '/' := fun h => hwa.2.1 (by simp [hwc, h])
    have hlead : leadingSlash ⟨wa ++ '/' :: wb⟩ = false := by
      simp [leadingSlash, hwc, hcslash]
    have hwane : (⟨wa ++ '/' :: wb⟩ : String) ≠ "" :=
      mk_ne_empty (by simp [hwc])
    rw [prepare_relative_path _ hwane hlead parse ⟨basePath, rq⟩ hparse bnd
      method]
    have hslashP : ("/" : String) ++ ⟨wa ++ '/' :: wb⟩ =
        ⟨'/' :: (wa ++ '/' :: wb)⟩ := by
      rw [slash_lit, mk_append]
      rfl
    rw [hslashP]
    exact ⟨_, _, rfl, join_base basePath bws wa wb hwa hwb hbase⟩

theorem claim_C5_witness :
    (∀ c : Client, c.Path [""] = c) ∧
    ∃ c' : Client, ∃ req : Request,
      (((New false).Path [⟨List.replicate 1 '/' ++
          (['u', 's', 'e', 'r', 's'] ++ List.replicate 0 '/')⟩]).Path
          [⟨List.replicate 0 '/' ++
            (['c', 'i', 'z', 'i', 'x', 's'] ++
              List.replicate 1 '/')⟩]).prepareRequest
          (fun _ => .ok ⟨"/api", []⟩) "b" "GET" =
        .success c' req ∧
      req.url.path = "/api" ++ "/" ++
        (⟨['u', 's', 'e', 'r', 's']⟩ : String) ++ "/" ++
        (⟨['c', 'i', 'z', 'i', 'x', 's']⟩ : String) :=
  claim_C5_path_join ['u', 's', 'e', 'r', 's'] ['c', 'i', 'z', 'i', 'x', 's']
    (by refine ⟨by decide, by decide, by decide⟩)
    (by refine ⟨by decide, by decide, by decide⟩) 1 0 0 1
    [['a', 'p', 'i']] "/api"
    (Or.inr ⟨by decide, by
      intro w hw
      simp at hw
      rw [hw]
      exact ⟨by decide, by decide, by decide⟩, by decide⟩)
    (fun _ => .ok ⟨"/api", []⟩) [] "b" "GET" rfl

end Gohttp
